import Mathlib

/-!
Verification development for the `demo-go` repository.

Shallow embedding of

* `web3-demo/bitcoin/main.go` : `loadConfig`, `GetUTXOs`, `CreateTransaction`,
  `BroadcastTransaction`, `SignMessage`, `main`;
* `web3-demo/main.go` : `constructWithdrawal`;
* `demo-casbin/main/main.go` : `authMiddleware`.

Go `int64` values are integers together with an explicit two's-complement
wrap (`wrapInt64`) after every addition and subtraction.  Calls into
third-party packages (btcd, net/http, yaml, json, casbin) are fields of the
records `Lib` and `World` or function parameters; the Go code of the repository itself is translated
statement by statement.
-/

namespace Bitcoin

/-! ## Machine integers -/

/-- Smallest `int64`. -/
def minInt64 : Int := -(2 ^ 63)

/-- Largest `int64`. -/
def maxInt64 : Int := 2 ^ 63 - 1

/-- Two's-complement reduction of an integer to the `int64` range. -/
def wrapInt64 (x : Int) : Int := (x + 2 ^ 63) % 2 ^ 64 - 2 ^ 63

/-- Go `a + b` on `int64`. -/
def add64 (a b : Int) : Int := wrapInt64 (a + b)

/-- Go `a - b` on `int64`. -/
def sub64 (a b : Int) : Int := wrapInt64 (a - b)

/-- The value is representable as an `int64`. -/
def InRange64 (x : Int) : Prop := minInt64 ≤ x ∧ x ≤ maxInt64

instance (x : Int) : Decidable (InRange64 x) := by
  unfold InRange64; infer_instance

/-! ## Data model -/

/-- Byte strings (`[]byte`). -/
abbrev Bytes := List Nat

/-- Go `error` values: made locally with `fmt.Errorf`, returned by a package
with some text, or one of the two errors of `encoding/hex`. -/
inductive GoErr where
  | errorf (msg : String)
  | lib (msg : String)
  | hexInvalidByte (b : Nat)
  | hexErrLength
  deriving DecidableEq

/-- Outcome of a Go call that returns `(value, error)` and may also panic. -/
inductive Result (α : Type) where
  | ok (v : α)
  | err (e : GoErr)
  | panic (msg : String)
  deriving DecidableEq

/-- The struct `UTXO` (the nested `Status.Confirmed` is flattened). -/
structure UTXO where
  TxID : String
  Vout : Nat
  Confirmed : Bool
  Value : Int
  deriving DecidableEq

/-- A `chainhash.Hash`. -/
structure Hash where
  bytes : Bytes
  deriving DecidableEq

/-- The struct `wire.OutPoint`. -/
structure OutPoint where
  Hash : Hash
  Index : Nat
  deriving DecidableEq

/-- The struct `wire.TxIn`. -/
structure TxIn where
  PreviousOutPoint : OutPoint
  SignatureScript : Bytes
  Witness : List Bytes
  Sequence : Nat
  deriving DecidableEq

/-- The struct `wire.TxOut`. -/
structure TxOut where
  Value : Int
  PkScript : Bytes
  deriving DecidableEq

/-- The struct `wire.MsgTx`. -/
structure MsgTx where
  Version : Int
  TxIn : List TxIn
  TxOut : List TxOut
  LockTime : Nat
  deriving DecidableEq

/-- The implementations of the interface `btcutil.Address`. -/
inductive Address where
  | pubKeyHash (hash160 : Bytes)
  | scriptHash (hash160 : Bytes)
  | witnessPubKeyHash (program : Bytes)
  | witnessScriptHash (program : Bytes)
  | taproot (program : Bytes)
  | pubKey (serialized : Bytes)
  deriving DecidableEq

/-- A `btcec.PrivateKey`, identified by its scalar. -/
structure PrivateKey where
  scalar : Nat
  deriving DecidableEq

/-- The constant `wire.TxVersion`. -/
def TxVersion : Int := 1

/-- The constant `wire.MaxTxInSequenceNum`. -/
def MaxTxInSequenceNum : Nat := 0xffffffff

/-- The constant `txscript.SigHashAll`. -/
def SigHashAll : Nat := 1

/-- The constructor `wire.NewMsgTx`. -/
def NewMsgTx (version : Int) : MsgTx :=
  { Version := version, TxIn := [], TxOut := [], LockTime := 0 }

/-- The constructor `wire.NewTxIn`. -/
def NewTxIn (prevOut : OutPoint) (signatureScript : Bytes) (witness : List Bytes) : TxIn :=
  { PreviousOutPoint := prevOut, SignatureScript := signatureScript,
    Witness := witness, Sequence := MaxTxInSequenceNum }

/-- The constructor `wire.NewTxOut`. -/
def NewTxOut (value : Int) (pkScript : Bytes) : TxOut :=
  { Value := value, PkScript := pkScript }

/-- The method `(*MsgTx).AddTxIn`. -/
def MsgTx.AddTxIn (tx : MsgTx) (ti : Bitcoin.TxIn) : MsgTx :=
  { tx with TxIn := tx.TxIn ++ [ti] }

/-- The method `(*MsgTx).AddTxOut`. -/
def MsgTx.AddTxOut (tx : MsgTx) (txOut : Bitcoin.TxOut) : MsgTx :=
  { tx with TxOut := tx.TxOut ++ [txOut] }

/-- An `ecdsa.Signature`, identified by its DER serialization. -/
structure Signature where
  Serialize : Bytes
  deriving DecidableEq

/-- The btcd functions the program calls (`EncodeAddress` is the method
`Address.String`).  `NewHashFromStr` returns a nil hash together with its
error when the string does not parse; `PayToAddrScript` is taken with its
error dropped, as the callers do. -/
structure Lib where
  DecodeAddress : String → Except String Address
  EncodeAddress : Address → String
  PayToAddrScript : Address → Bytes
  NewHashFromStr : String → Option Hash
  SignatureScript : MsgTx → Nat → Bytes → Nat → PrivateKey → Bool → Except String Bytes
  PrivKeyFromBytes : Bytes → PrivateKey
  DoubleHashB : Bytes → Bytes
  EcdsaSign : PrivateKey → Bytes → Signature

/-- `wire.NewOutPoint(hash, index)` applied to the result of
`chainhash.NewHashFromStr` whose error was dropped: the constructor
dereferences the hash pointer, which is nil when parsing failed. -/
def NewOutPoint (hash : Option Hash) (index : Nat) : Option OutPoint :=
  hash.map (fun h => { Hash := h, Index := index })

/-! ## `CreateTransaction` -/

/-- The input loop of `CreateTransaction` (`for _, utxo := range utxos`):
one input per visited unspent, `totalInput` accumulated in `int64`, `break`
as soon as `totalInput >= amount+1000`. -/
def CreateTransaction_inputLoop (lib : Lib) (amount : Int) :
    List UTXO → MsgTx → Int → Result (MsgTx × Int)
  | [], tx, totalInput => .ok (tx, totalInput)
  | utxo :: rest, tx, totalInput =>
    match NewOutPoint (lib.NewHashFromStr utxo.TxID) utxo.Vout with
    | none => .panic "runtime error: invalid memory address or nil pointer dereference"
    | some outPoint =>
      let txIn := NewTxIn outPoint [] []
      let tx := tx.AddTxIn txIn
      let totalInput := add64 totalInput utxo.Value
      if totalInput ≥ add64 amount 1000 then .ok (tx, totalInput)
      else CreateTransaction_inputLoop lib amount rest tx totalInput

/-- Assignment `tx.TxIn[i].SignatureScript = sigScript`. -/
def setSignatureScript : List TxIn → Nat → Bytes → List TxIn
  | [], _, _ => []
  | ti :: rest, 0, s => { ti with SignatureScript := s } :: rest
  | ti :: rest, i + 1, s => ti :: setSignatureScript rest i s

/-- The signing loop of `CreateTransaction` (`for i := range tx.TxIn`), over
the indices still to visit. -/
def CreateTransaction_signLoop (lib : Lib) (privKey : PrivateKey) (fromAddr : Address) :
    List Nat → MsgTx → Result MsgTx
  | [], tx => .ok tx
  | i :: rest, tx =>
    let fromPkScript := lib.PayToAddrScript fromAddr
    match lib.SignatureScript tx i fromPkScript SigHashAll privKey true with
    | .error e => .err (.lib e)
    | .ok sigScript =>
      CreateTransaction_signLoop lib privKey fromAddr rest
        { tx with TxIn := setSignatureScript tx.TxIn i sigScript }

/-- The function `CreateTransaction` (the network parameter only reaches
`DecodeAddress`, which already carries it). -/
def CreateTransaction (lib : Lib) (privKey : PrivateKey) (fromAddr : Address)
    (toAddrStr : String) (amount : Int) (utxos : List UTXO) : Result MsgTx :=
  match lib.DecodeAddress toAddrStr with
  | .error e => .err (.lib e)
  | .ok toAddr =>
    let toPkScript := lib.PayToAddrScript toAddr
    let tx := NewMsgTx TxVersion
    match CreateTransaction_inputLoop lib amount utxos tx 0 with
    | .panic m => .panic m
    | .err e => .err e
    | .ok (tx, totalInput) =>
      if totalInput < add64 amount 1000 then .err (.errorf "insufficient funds")
      else
        let txOut := NewTxOut amount toPkScript
        let tx := tx.AddTxOut txOut
        let change := sub64 (sub64 totalInput amount) 1000
        let tx :=
          if change > 0 then
            let changePkScript := lib.PayToAddrScript fromAddr
            tx.AddTxOut (NewTxOut change changePkScript)
          else tx
        CreateTransaction_signLoop lib privKey fromAddr (List.range tx.TxIn.length) tx

/-! ## A concrete library instance, for evaluating the model -/

/-- Hexadecimal digit test used by `sampleLib`. -/
def isHexChar (c : Char) : Bool :=
  ('0' ≤ c && c ≤ '9') || ('a' ≤ c && c ≤ 'f') || ('A' ≤ c && c ≤ 'F')

/-- A small stand-in for btcd: addresses are written `pkh:…` or `wpkh:…`,
hash strings are at most 64 hexadecimal characters, and the signature script
is a fixed two-push script. -/
def sampleLib : Lib where
  DecodeAddress := fun s =>
    if s = "pkh:alice" then .ok (.pubKeyHash [1])
    else if s = "wpkh:alice" then .ok (.witnessPubKeyHash [1])
    else if s = "wpkh:bob" then .ok (.witnessPubKeyHash [2])
    else if s = "tb1qw508d6qejxtdg4y5r3zarvary0c5xw7kxpjzsx" then .ok (.witnessPubKeyHash [3])
    else .error "decoded address is of unknown format"
  EncodeAddress := fun a =>
    match a with
    | .pubKeyHash [1] => "pkh:alice"
    | .witnessPubKeyHash [1] => "wpkh:alice"
    | .witnessPubKeyHash [2] => "wpkh:bob"
    | _ => "tb1qw508d6qejxtdg4y5r3zarvary0c5xw7kxpjzsx"
  PayToAddrScript := fun a =>
    match a with
    | .pubKeyHash h => [0x76, 0xa9, 0x14] ++ h ++ [0x88, 0xac]
    | .witnessPubKeyHash h => [0x00, 0x14] ++ h
    | _ => []
  NewHashFromStr := fun s =>
    if s.toList.length ≤ 64 ∧ s.toList.all isHexChar then some ⟨s.toList.map Char.toNat⟩
    else none
  SignatureScript := fun _ i _ hashType key _ => .ok [0x47, key.scalar, i, hashType, 0x21]
  PrivKeyFromBytes := fun b => ⟨b.foldl (fun n x => 256 * n + x) 0⟩
  DoubleHashB := fun b => [b.length, b.sum % 256]
  EcdsaSign := fun key h => ⟨0x30 :: (key.scalar % 256) :: h⟩

/-- An unspent with the given hash string, index 0 and value. -/
def sampleUTXO (txid : String) (value : Int) : UTXO :=
  { TxID := txid, Vout := 0, Confirmed := true, Value := value }

/-! ## `encoding/hex` -/

/-- UTF-8 encoding of one character. -/
def utf8EncodeChar (c : Char) : Bytes :=
  let n := c.toNat
  if n < 0x80 then [n]
  else if n < 0x800 then [0xC0 + n / 64, 0x80 + n % 64]
  else if n < 0x10000 then [0xE0 + n / 4096, 0x80 + n / 64 % 64, 0x80 + n % 64]
  else [0xF0 + n / 262144, 0x80 + n / 4096 % 64, 0x80 + n / 64 % 64, 0x80 + n % 64]

/-- UTF-8 encoding of a list of characters. -/
def utf8Encode : List Char → Bytes
  | [] => []
  | c :: cs => utf8EncodeChar c ++ utf8Encode cs

/-- The bytes of a Go string (`[]byte(s)`): its UTF-8 encoding. -/
def stringBytes (s : String) : Bytes := utf8Encode s.toList

/-- One digit of `hex.EncodeToString`. -/
def hexDigit (n : Nat) : Char := "0123456789abcdef".toList.getD n '0'

/-- The function `hex.EncodeToString`, on a list of bytes. -/
def hexEncodeList : Bytes → List Char
  | [] => []
  | b :: rest => hexDigit (b / 16 % 16) :: hexDigit (b % 16) :: hexEncodeList rest

/-- The function `hex.EncodeToString`. -/
def hexEncodeToString (b : Bytes) : String := String.mk (hexEncodeList b)

/-- Value of a hexadecimal digit (`reverseHexTable`), `none` for any other
byte. -/
def fromHexChar (b : Nat) : Option Nat :=
  if 48 ≤ b ∧ b ≤ 57 then some (b - 48)
  else if 97 ≤ b ∧ b ≤ 102 then some (b - 87)
  else if 65 ≤ b ∧ b ≤ 70 then some (b - 55)
  else none

/-- The loop of `hex.Decode` over the bytes of the source: pairs of digits
left to right, then the check of a trailing single byte. -/
def hexDecodeList : Bytes → Except GoErr Bytes
  | [] => .ok []
  | [p] =>
    match fromHexChar p with
    | none => .error (.hexInvalidByte p)
    | some _ => .error .hexErrLength
  | p :: q :: rest =>
    match fromHexChar p with
    | none => .error (.hexInvalidByte p)
    | some a =>
      match fromHexChar q with
      | none => .error (.hexInvalidByte q)
      | some b =>
        match hexDecodeList rest with
        | .error e => .error e
        | .ok bytes => .ok ((a * 16 + b) :: bytes)

/-- The function `hex.DecodeString`: `hex.Decode` on the bytes of the string. -/
def hexDecodeString (s : String) : Except GoErr Bytes := hexDecodeList (stringBytes s)

/-! ## Configuration -/

/-- The struct `NodeConfig`. -/
structure NodeConfig where
  RPCURL : String
  RPCUser : String
  RPCPass : String
  DataAPIURL : String
  DataAPIKey : String
  DataAPIToken : String
  Timeout : Int
  deriving DecidableEq

/-- The anonymous struct of the field `Config.WalletNode`. -/
structure WalletNode where
  BTC : NodeConfig
  ETH : NodeConfig
  deriving DecidableEq

/-- The struct `Config`. -/
structure Config where
  WalletNode : WalletNode
  deriving DecidableEq

/-- The zero value of `NodeConfig`, the initial `globalConfig`. -/
def NodeConfig.zero : NodeConfig :=
  { RPCURL := "", RPCUser := "", RPCPass := "", DataAPIURL := "", DataAPIKey := "",
    DataAPIToken := "", Timeout := 0 }

/-- An `http.Request` as the program builds it (header keys as written in the
source). -/
structure Request where
  Method : String
  URL : String
  Body : Option String
  Header : List (String × String)
  deriving DecidableEq

/-- An `http.Client`; `Timeout` is a `time.Duration` in nanoseconds. -/
structure Client where
  Timeout : Int
  deriving DecidableEq

/-- An `http.Response`; `Body` is what `io.ReadAll(resp.Body)` yields. -/
structure Response where
  StatusCode : Nat
  Body : String
  deriving DecidableEq

/-- The surroundings of the process: environment variables as `os.Getenv`
sees them once `godotenv.Load` has run, the file system, the YAML and JSON
decoders, the HTTP transport and the transaction serializer. -/
structure World where
  Getenv : String → String
  ReadFile : String → Except String Bytes
  YamlUnmarshal : Bytes → Except String Config
  NewRequest : String → String → Option String → Except String Request
  Do : Client → Request → Except String Response
  JsonUnmarshal : String → Except String (List UTXO)
  Serialize : MsgTx → Except String Bytes

/-- The function `loadConfig`, from the value of `globalConfig` before the
call to its value after. -/
def loadConfig (w : World) (globalConfig : NodeConfig) : NodeConfig :=
  let nodeURL := w.Getenv "BTC_NODE_API_URL"
  if nodeURL ≠ "" then
    { globalConfig with DataAPIURL := nodeURL, RPCURL := nodeURL }
  else
    let fallback : NodeConfig :=
      if globalConfig.DataAPIURL = "" then
        { globalConfig with
          DataAPIURL := "https://blockstream.info/testnet/api",
          RPCURL := "https://blockstream.info/testnet/api" }
      else globalConfig
    match w.ReadFile "config.yml" with
    | .ok yamlFile =>
      match w.YamlUnmarshal yamlFile with
      | .ok cfg => if cfg.WalletNode.BTC.DataAPIURL ≠ "" then cfg.WalletNode.BTC else fallback
      | .error _ => fallback
    | .error _ => fallback

/-! ## The indexer client -/

/-- The constant `time.Second`, in nanoseconds. -/
def Second : Int := 1000000000

/-- The client both requests use: `client.Timeout` is set only when
`globalConfig.Timeout > 0`. -/
def newClient (globalConfig : NodeConfig) : Client :=
  if globalConfig.Timeout > 0 then { Timeout := wrapInt64 (globalConfig.Timeout * Second) }
  else { Timeout := 0 }

/-- The method `req.Header.Add`. -/
def Request.HeaderAdd (req : Request) (key value : String) : Request :=
  { req with Header := req.Header ++ [(key, value)] }

/-- The method `req.Header.Set`. -/
def Request.HeaderSet (req : Request) (key value : String) : Request :=
  { req with Header := req.Header.filter (fun kv => kv.1 ≠ key) ++ [(key, value)] }

/-- The two optional credentials headers (`X-API-Key`, `Authorization`). -/
def addCredentials (globalConfig : NodeConfig) (req : Request) : Request :=
  let req :=
    if globalConfig.DataAPIKey ≠ "" then req.HeaderAdd "X-API-Key" globalConfig.DataAPIKey
    else req
  if globalConfig.DataAPIToken ≠ "" then
    req.HeaderAdd "Authorization" ("Bearer " ++ globalConfig.DataAPIToken)
  else req

/-- The function `GetUTXOs`. -/
def GetUTXOs (w : World) (globalConfig : NodeConfig) (address : String) : Result (List UTXO) :=
  let nodeURL := globalConfig.DataAPIURL
  let url := nodeURL ++ "/address/" ++ address ++ "/utxo"
  let client := newClient globalConfig
  match w.NewRequest "GET" url none with
  | .error e => .err (.lib e)
  | .ok req =>
    let req := addCredentials globalConfig req
    match w.Do client req with
    | .error e => .err (.lib e)
    | .ok resp =>
      let body := resp.Body
      match w.JsonUnmarshal body with
      | .error e => .err (.lib e)
      | .ok utxos => .ok utxos

/-- The function `BroadcastTransaction`. -/
def BroadcastTransaction (w : World) (globalConfig : NodeConfig) (tx : MsgTx) : Result String :=
  match w.Serialize tx with
  | .error e => .err (.lib e)
  | .ok buf =>
    let txHex := hexEncodeToString buf
    let nodeURL := globalConfig.DataAPIURL
    let url := nodeURL ++ "/tx"
    let client := newClient globalConfig
    match w.NewRequest "POST" url (some txHex) with
    | .error e => .err (.lib e)
    | .ok req =>
      let req := req.HeaderSet "Content-Type" "text/plain"
      let req := addCredentials globalConfig req
      match w.Do client req with
      | .error e => .err (.lib e)
      | .ok resp =>
        let body := resp.Body
        .ok body

/-! ## `SignMessage` and `main` -/

/-- Exact (unbounded) sum of the values of a list of unspents. -/
def sumValues (us : List UTXO) : Int := (us.map (fun u => u.Value)).sum

/-- The `int64` accumulation `totalInput += utxo.Value` over a list of unspents,
from an initial total. -/
def accumulate64 (total : Int) (us : List UTXO) : Int :=
  us.foldl (fun t u => add64 t u.Value) total

/-- The value of `totalInput` after adding, from 0, every unspent of the list. -/
def int64Sum (us : List UTXO) : Int := accumulate64 0 us

/-- The input `CreateTransaction` adds for an unspent, when its hash string parses. -/
def inputOf (lib : Lib) (u : UTXO) : Option TxIn :=
  (NewOutPoint (lib.NewHashFromStr u.TxID) u.Vout).map (fun o => NewTxIn o [] [])

/-- Exact sum of the values of a list of outputs. -/
def sumOutputs (os : List TxOut) : Int := (os.map (fun o => o.Value)).sum

/-! ## Concrete calls, for evaluating the model -/

/-- The signing key of the sample calls. -/
def sampleKey : PrivateKey := ⟨7⟩

/-- The input `sampleLib` produces at index `i` for `sampleUTXO txid _`, signed
with `sampleKey`. -/
def sampleInput (txid : String) (i : Nat) : TxIn :=
  { PreviousOutPoint := { Hash := ⟨txid.toList.map Char.toNat⟩, Index := 0 },
    SignatureScript := [0x47, 7, i, 1, 0x21], Witness := [], Sequence := 0xffffffff }

/-- A version-1 transaction with the given inputs and outputs. -/
def sampleTx (ins : List TxIn) (outs : List TxOut) : MsgTx :=
  { Version := 1, TxIn := ins, TxOut := outs, LockTime := 0 }

/-- Pay-to-address script of `wpkh:bob` under `sampleLib`. -/
def bobScript : Bytes := [0x00, 0x14, 2]

/-- Pay-to-address script of `pkh:alice` under `sampleLib`. -/
def alicePKHScript : Bytes := [0x76, 0xa9, 0x14, 1, 0x88, 0xac]

/-- Pay-to-address script of `wpkh:alice` under `sampleLib`. -/
def aliceWPKHScript : Bytes := [0x00, 0x14, 1]

/-- Unspents of 100, 200 and 300 satoshis. -/
def threeUnspents : List UTXO := [sampleUTXO "aa" 100, sampleUTXO "bb" 200, sampleUTXO "cc" 300]

/-- Five unspents of 2^62, the last one larger by 1: their running `int64`
total wraps at the second. -/
def fiveLargeUnspents : List UTXO :=
  [sampleUTXO "aa" (2 ^ 62), sampleUTXO "bb" (2 ^ 62), sampleUTXO "cc" (2 ^ 62),
    sampleUTXO "dd" (2 ^ 62), sampleUTXO "ee" (2 ^ 62 + 1)]

/-- Unspents of 1999, 2^63 - 1, 2^63 - 1 and 1003: their running `int64`
total is 1999, 1998 - 2^63, 1997 and 3000. -/
def twiceWrappingUnspents : List UTXO :=
  [sampleUTXO "aa" 1999, sampleUTXO "bb" (2 ^ 63 - 1), sampleUTXO "cc" (2 ^ 63 - 1),
    sampleUTXO "dd" 1003]

/-! ## A concrete world, for evaluating the model -/

/-- A process environment with the given key and sender address, no
`config.yml`, and an indexer that answers every request to an `http` or
`https` URL with `resp`; the JSON decoder knows the empty array and one
single-unspent document. -/
def sampleWorld (privKeyHex addressStr : String) (resp : Response) : World where
  Getenv := fun name =>
    if name = "BTC_PRIVATE_KEY" then privKeyHex
    else if name = "BTC_ADDRESS" then addressStr
    else ""
  ReadFile := fun _ => .error "open config.yml: no such file or directory"
  YamlUnmarshal := fun _ => .error "yaml: unmarshal errors"
  NewRequest := fun method url body =>
    .ok { Method := method, URL := url, Body := body, Header := [] }
  Do := fun _ req =>
    if req.URL.toList.take 7 = "http://".toList ∨ req.URL.toList.take 8 = "https://".toList then
      .ok resp
    else .error "unsupported protocol scheme"
  JsonUnmarshal := fun body =>
    if body = "[]" then .ok []
    else if body = "[\x7b\"txid\":\"aa\",\"vout\":0,\"value\":5000\x7d]" then
      .ok [sampleUTXO "aa" 5000]
    else .error "invalid character looking for beginning of value"
  Serialize := fun tx => .ok [tx.TxIn.length, tx.TxOut.length]

/-- A process environment for `loadConfig`: `BTC_NODE_API_URL` has the given
value, and `config.yml` holds the given document when there is one. -/
def sampleConfigWorld (nodeURL : String) (yaml : Option Config) : World where
  Getenv := fun name => if name = "BTC_NODE_API_URL" then nodeURL else ""
  ReadFile := fun _ =>
    match yaml with
    | some _ => .ok []
    | none => .error "open config.yml: no such file or directory"
  YamlUnmarshal := fun _ =>
    match yaml with
    | some cfg => .ok cfg
    | none => .error "yaml: unmarshal errors"
  NewRequest := fun method url body =>
    .ok { Method := method, URL := url, Body := body, Header := [] }
  Do := fun _ _ => .error "dial tcp: connection refused"
  JsonUnmarshal := fun _ => .error "unexpected end of JSON input"
  Serialize := fun tx => .ok [tx.TxIn.length, tx.TxOut.length]

/-- The configuration `loadConfig` falls back to: the public testnet indexer,
no credentials, no timeout. -/
def sampleNodeConfig : NodeConfig :=
  { NodeConfig.zero with
    DataAPIURL := "https://blockstream.info/testnet/api",
    RPCURL := "https://blockstream.info/testnet/api" }

/-- A `config.yml` document whose `wallet_node.btc` record is fully filled. -/
def sampleYaml : Config :=
  { WalletNode :=
      { BTC := { RPCURL := "http://node:18332", RPCUser := "u", RPCPass := "p",
                 DataAPIURL := "https://mempool.space/testnet/api", DataAPIKey := "k",
                 DataAPIToken := "t", Timeout := 10 },
        ETH := NodeConfig.zero } }

end Bitcoin

/-! ## `web3-demo/main.go` -/

namespace Web3Demo

open Bitcoin

/-- The function `constructWithdrawal` (the P2WPKH variant of the client): one
payment output, one input on the all-zero outpoint, no signing step, then
serialization to hex. -/
def constructWithdrawal (w : World) (lib : Lib) (toAddressStr : String) (amount : Int) :
    Result String :=
  match lib.DecodeAddress toAddressStr with
  | .error e => .err (.lib e)
  | .ok toAddr =>
    let toPkScript := lib.PayToAddrScript toAddr
    let msgTx := NewMsgTx TxVersion
    let msgTx := msgTx.AddTxOut (NewTxOut amount toPkScript)
    match NewOutPoint
        (lib.NewHashFromStr "0000000000000000000000000000000000000000000000000000000000000000")
        0 with
    | none => .panic "runtime error: invalid memory address or nil pointer dereference"
    | some outPoint =>
      let txIn := NewTxIn outPoint [] []
      let msgTx := msgTx.AddTxIn txIn
      match w.Serialize msgTx with
      | .error e => .err (.lib e)
      | .ok buf => .ok (hexEncodeToString buf)

end Web3Demo

/-! ## `demo-casbin/main/main.go` -/

namespace Casbin

/-- The part of a `gin.Context` the middleware reads and writes: the request
(header `X-User`, path, method) and the response state (`aborted` is what
`c.Abort` sets; `status` and `json` are what `c.JSON` writes). -/
structure Context where
  XUser : String
  Path : String
  Method : String
  aborted : Bool
  status : Option Nat
  json : List (String × String)
  deriving DecidableEq

/-- The constant `http.StatusUnauthorized`. -/
def StatusUnauthorized : Nat := 401

/-- The constant `http.StatusForbidden`. -/
def StatusForbidden : Nat := 403

/-- The constant `http.StatusInternalServerError`. -/
def StatusInternalServerError : Nat := 500

/-- The method `c.AbortWithStatusJSON`. -/
def Context.AbortWithStatusJSON (c : Context) (code : Nat) (obj : List (String × String)) :
    Context :=
  { c with aborted := true, status := some code, json := obj }

/-- The handler returned by `authMiddleware`.  `Enforce` is the method
`enforcer.Enforce` with its `(bool, error)` result; `Next` is `c.Next`, the
run of the handlers that follow in the chain. -/
def authMiddleware (Enforce : String → String → String → Bool × Option String)
    (Next : Context → Context) (c : Context) : Context :=
  let user := c.XUser
  if user = "" then
    c.AbortWithStatusJSON StatusUnauthorized [("error", "missing user")]
  else
    let path := c.Path
    let method := c.Method
    match Enforce user path method with
    | (_, some _) =>
      c.AbortWithStatusJSON StatusInternalServerError [("error", "auth error")]
    | (allowed, none) =>
      if !allowed then
        c.AbortWithStatusJSON StatusForbidden [("error", "forbidden")]
      else
        Next c

/-- A request context before any handler ran. -/
def newContext (user path method : String) : Context :=
  { XUser := user, Path := path, Method := method, aborted := false, status := none, json := [] }

/-- A policy with one rule: `alice` may `GET /api/user`; asking about the
user `broken` makes the evaluator fail. -/
def samplePolicy (user path method : String) : Bool × Option String :=
  if user = "broken" then (false, some "invalid request size")
  else (user = "alice" && path = "/api/user" && method = "GET", none)

/-- The route handler of `GET /api/user`. -/
def userListHandler (c : Context) : Context :=
  { c with status := some 200, json := [("data", "user list")] }

end Casbin

namespace Bitcoin

/-! ## Arithmetic of `int64` -/

theorem wrapInt64_of_inRange {x : Int} (h : InRange64 x) : wrapInt64 x = x := by
  unfold InRange64 minInt64 maxInt64 at h
  unfold wrapInt64
  omega

theorem wrapInt64_inRange (x : Int) : InRange64 (wrapInt64 x) := by
  unfold InRange64 minInt64 maxInt64 wrapInt64
  omega

theorem wrapInt64_add_left (a b : Int) : wrapInt64 (wrapInt64 a + b) = wrapInt64 (a + b) := by
  unfold wrapInt64
  omega

theorem wrapInt64_sub_left (a b : Int) : wrapInt64 (wrapInt64 a - b) = wrapInt64 (a - b) := by
  unfold wrapInt64
  omega

theorem sumValues_nil : sumValues [] = 0 := rfl

theorem sumValues_cons (u : UTXO) (us : List UTXO) :
    sumValues (u :: us) = u.Value + sumValues us := by
  simp [sumValues]

theorem accumulate64_eq_wrap (us : List UTXO) (total : Int) (h : wrapInt64 total = total) :
    accumulate64 total us = wrapInt64 (total + sumValues us) := by
  induction us generalizing total with
  | nil => simp [accumulate64, sumValues, h]
  | cons u us ih =>
    have h1 : wrapInt64 (add64 total u.Value) = add64 total u.Value :=
      wrapInt64_of_inRange (wrapInt64_inRange _)
    have h2 := ih (add64 total u.Value) h1
    simp only [accumulate64, List.foldl_cons] at h2 ⊢
    rw [h2, sumValues_cons, add64, wrapInt64_add_left, add_assoc]

theorem int64Sum_eq_wrap (us : List UTXO) : int64Sum us = wrapInt64 (sumValues us) := by
  have h := accumulate64_eq_wrap us 0 (by decide)
  simpa [int64Sum] using h

theorem change_eq_wrap (us : List UTXO) (amount : Int) :
    sub64 (sub64 (int64Sum us) amount) 1000 = wrapInt64 (sumValues us - amount - 1000) := by
  rw [int64Sum_eq_wrap]
  unfold sub64 wrapInt64
  omega

/-! ## The input loop -/

theorem accumulate64_take_succ (total : Int) (u : UTXO) (rest : List UTXO) (j : Nat) :
    accumulate64 total ((u :: rest).take (j + 1)) =
      accumulate64 (add64 total u.Value) (rest.take j) := by
  simp [accumulate64]

/-- What a completed run of the input loop did: it visited a prefix of `k`
unspents, added their inputs in order, accumulated their values, and stopped
at the first visited unspent at which the total reached `amount+1000`. -/
theorem inputLoop_ok (lib : Lib) (amount : Int) :
    ∀ (us : List UTXO) (tx : MsgTx) (total : Int) (tx' : MsgTx) (total' : Int),
      CreateTransaction_inputLoop lib amount us tx total = .ok (tx', total') →
      ∃ k, k ≤ us.length ∧ (us ≠ [] → 1 ≤ k) ∧
        (∃ ins, tx'.TxIn = tx.TxIn ++ ins ∧ ins.length = k ∧
          ins.map some = (us.take k).map (inputOf lib)) ∧
        tx'.TxOut = tx.TxOut ∧ tx'.Version = tx.Version ∧ tx'.LockTime = tx.LockTime ∧
        total' = accumulate64 total (us.take k) ∧
        (∀ j, 1 ≤ j → j < k → accumulate64 total (us.take j) < add64 amount 1000) ∧
        (k < us.length → add64 amount 1000 ≤ total') := by
  intro us
  induction us with
  | nil =>
    intro tx total tx' total' h
    simp only [CreateTransaction_inputLoop, Result.ok.injEq, Prod.mk.injEq] at h
    obtain ⟨h1, h2⟩ := h
    subst h1 h2
    exact ⟨0, le_refl _, fun h => absurd rfl h, ⟨[], by simp, rfl, by simp⟩, rfl, rfl, rfl,
      by simp [accumulate64], fun j h1 h2 => by omega, fun h => by simp at h⟩
  | cons u rest ih =>
    intro tx total tx' total' h
    rw [CreateTransaction_inputLoop] at h
    cases hop : NewOutPoint (lib.NewHashFromStr u.TxID) u.Vout with
    | none => rw [hop] at h; simp at h
    | some o =>
      rw [hop] at h
      simp only at h
      have hin : inputOf lib u = some (NewTxIn o [] []) := by simp [inputOf, hop]
      by_cases hge : add64 total u.Value ≥ add64 amount 1000
      · rw [if_pos hge] at h
        simp only [Result.ok.injEq, Prod.mk.injEq] at h
        obtain ⟨h1, h2⟩ := h
        subst h1 h2
        refine ⟨1, by simp, fun _ => le_refl _, ⟨[NewTxIn o [] []], rfl, rfl, by simp [hin]⟩,
          rfl, rfl, rfl, by simp [accumulate64], fun j h1 h2 => by omega, fun _ => hge⟩
      · rw [if_neg hge] at h
        obtain ⟨k, hk, -, ⟨ins, hins, hlen, hmap⟩, hout, hver, hlock, htot, hlt, hbrk⟩ :=
          ih _ _ _ _ h
        refine ⟨k + 1, by simpa using hk, fun _ => by omega,
          ⟨NewTxIn o [] [] :: ins, ?_, by simp [hlen], by simp [hin, hmap]⟩,
          hout, hver, hlock, ?_, ?_, ?_⟩
        · rw [hins]; simp [MsgTx.AddTxIn]
        · rw [accumulate64_take_succ]; exact htot
        · intro j hj1 hj2
          obtain ⟨j', rfl⟩ : ∃ j', j = j' + 1 := ⟨j - 1, by omega⟩
          rw [accumulate64_take_succ]
          rcases Nat.eq_zero_or_pos j' with hz | hpos
          · subst hz
            simpa [accumulate64] using lt_of_not_ge hge
          · exact hlt j' hpos (by omega)
        · intro hk'
          exact hbrk (by simpa using hk')

/-- The input loop returns no error value: it completes or panics. -/
theorem inputLoop_ne_err (lib : Lib) (amount : Int) (e : GoErr) :
    ∀ (us : List UTXO) (tx : MsgTx) (total : Int),
      CreateTransaction_inputLoop lib amount us tx total ≠ .err e := by
  intro us
  induction us with
  | nil => intro tx total; simp [CreateTransaction_inputLoop]
  | cons u rest ih =>
    intro tx total
    rw [CreateTransaction_inputLoop]
    cases hop : NewOutPoint (lib.NewHashFromStr u.TxID) u.Vout with
    | none => simp
    | some o =>
      simp only
      split
      · simp
      · exact ih _ _

/-- When every hash string parses the input loop completes. -/
theorem inputLoop_total (lib : Lib) (amount : Int) :
    ∀ (us : List UTXO) (tx : MsgTx) (total : Int),
      (∀ u ∈ us, (lib.NewHashFromStr u.TxID).isSome) →
      ∃ r, CreateTransaction_inputLoop lib amount us tx total = .ok r := by
  intro us
  induction us with
  | nil => intro tx total _; exact ⟨_, rfl⟩
  | cons u rest ih =>
    intro tx total hp
    rw [CreateTransaction_inputLoop]
    obtain ⟨h, hh⟩ := Option.isSome_iff_exists.mp (hp u (by simp))
    simp only [hh, NewOutPoint, Option.map_some']
    split
    · exact ⟨_, rfl⟩
    · exact ih _ _ (fun v hv => hp v (by simp [hv]))

/-! ## The signing loop -/

theorem setSignatureScript_getElem? (l : List TxIn) (i j : Nat) (s : Bytes) :
    (setSignatureScript l i s)[j]? =
      if j = i then l[j]?.map (fun ti => { ti with SignatureScript := s }) else l[j]? := by
  induction l generalizing i j with
  | nil => simp [setSignatureScript]
  | cons ti rest ih =>
    cases i with
    | zero =>
      cases j with
      | zero => simp [setSignatureScript]
      | succ j => simp [setSignatureScript]
    | succ i =>
      cases j with
      | zero => simp [setSignatureScript]
      | succ j => simp [setSignatureScript, ih]

theorem setSignatureScript_map_outPoint (l : List TxIn) (i : Nat) (s : Bytes) :
    (setSignatureScript l i s).map (fun ti => ti.PreviousOutPoint) =
      l.map (fun ti => ti.PreviousOutPoint) := by
  induction l generalizing i with
  | nil => simp [setSignatureScript]
  | cons ti rest ih => cases i <;> simp [setSignatureScript, ih]

theorem setSignatureScript_map_witness (l : List TxIn) (i : Nat) (s : Bytes) :
    (setSignatureScript l i s).map (fun ti => ti.Witness) = l.map (fun ti => ti.Witness) := by
  induction l generalizing i with
  | nil => simp [setSignatureScript]
  | cons ti rest ih => cases i <;> simp [setSignatureScript, ih]

/-- A completed signing loop leaves outputs, outpoints and witnesses as they
were; each visited index carries the script `SignatureScript` returned for
it, and the other indices are untouched. -/
theorem signLoop_ok (lib : Lib) (privKey : PrivateKey) (fromAddr : Address) :
    ∀ (idxs : List Nat) (tx tx' : MsgTx),
      CreateTransaction_signLoop lib privKey fromAddr idxs tx = .ok tx' →
      idxs.Nodup →
      tx'.TxOut = tx.TxOut ∧
      tx'.TxIn.map (fun ti => ti.PreviousOutPoint) = tx.TxIn.map (fun ti => ti.PreviousOutPoint) ∧
      tx'.TxIn.map (fun ti => ti.Witness) = tx.TxIn.map (fun ti => ti.Witness) ∧
      (∀ i, i ∉ idxs → tx'.TxIn[i]? = tx.TxIn[i]?) ∧
      (∀ i ∈ idxs, ∀ ti, tx'.TxIn[i]? = some ti →
        ∃ txi : MsgTx, txi.TxOut = tx.TxOut ∧
          txi.TxIn.map (fun t => t.PreviousOutPoint) = tx.TxIn.map (fun t => t.PreviousOutPoint) ∧
          lib.SignatureScript txi i (lib.PayToAddrScript fromAddr) SigHashAll privKey true
            = .ok ti.SignatureScript) := by
  intro idxs
  induction idxs with
  | nil =>
    intro tx tx' h _
    simp only [CreateTransaction_signLoop, Result.ok.injEq] at h
    subst h
    exact ⟨rfl, rfl, rfl, fun _ _ => rfl, fun i hi => by simp at hi⟩
  | cons i rest ih =>
    intro tx tx' h hnd
    rw [CreateTransaction_signLoop] at h
    cases hs : lib.SignatureScript tx i (lib.PayToAddrScript fromAddr) SigHashAll privKey true with
    | error e => rw [hs] at h; simp at h
    | ok s =>
      rw [hs] at h
      simp only at h
      obtain ⟨hni, hnr⟩ := List.nodup_cons.mp hnd
      obtain ⟨hout, hop, hwit, hother, hsig⟩ := ih _ _ h hnr
      simp only [setSignatureScript_map_outPoint, setSignatureScript_map_witness] at hop hwit
      refine ⟨hout, hop, hwit, ?_, ?_⟩
      · intro j hj
        have hji : j ≠ i := fun hh => hj (by simp [hh])
        have hjr : j ∉ rest := fun hh => hj (by simp [hh])
        rw [hother j hjr]
        simp [setSignatureScript_getElem?, hji]
      · intro j hj ti hti
        rcases List.mem_cons.mp hj with hji | hjr
        · subst hji
          rw [hother j hni] at hti
          simp only [setSignatureScript_getElem?, if_true] at hti
          refine ⟨tx, rfl, rfl, ?_⟩
          cases hg : tx.TxIn[j]? with
          | none => rw [hg] at hti; simp at hti
          | some t0 =>
            rw [hg] at hti
            simp only [Option.map_some', Option.some.injEq] at hti
            subst hti
            exact hs
        · obtain ⟨txi, h1, h2, h3⟩ := hsig j hjr ti hti
          refine ⟨txi, h1, ?_, h3⟩
          rw [h2]
          exact setSignatureScript_map_outPoint _ _ _

theorem inputOf_fresh (lib : Lib) (l : List UTXO) (ins : List TxIn)
    (h : ins.map some = l.map (inputOf lib)) :
    ∀ ti ∈ ins, ti.Witness = [] ∧ ti.SignatureScript = [] := by
  intro ti hti
  have hmem : some ti ∈ l.map (inputOf lib) := by
    rw [← h]; exact List.mem_map.mpr ⟨ti, hti, rfl⟩
  obtain ⟨u, -, hu⟩ := List.mem_map.mp hmem
  simp only [inputOf, Option.map_eq_some'] at hu
  obtain ⟨o, -, ho⟩ := hu
  subst ho
  exact ⟨rfl, rfl⟩

theorem inputOf_outPoints (lib : Lib) (l : List UTXO) (ins : List TxIn)
    (h : ins.map some = l.map (inputOf lib)) :
    ins.map (fun ti => some ti.PreviousOutPoint) =
      l.map (fun u => NewOutPoint (lib.NewHashFromStr u.TxID) u.Vout) := by
  induction l generalizing ins with
  | nil =>
    cases ins with
    | nil => rfl
    | cons a b => simp at h
  | cons u rest ih =>
    cases ins with
    | nil => simp at h
    | cons a b =>
      simp only [List.map_cons, List.cons.injEq] at h ⊢
      obtain ⟨h1, h2⟩ := h
      refine ⟨?_, ih b h2⟩
      simp only [inputOf] at h1
      cases hn : NewOutPoint (lib.NewHashFromStr u.TxID) u.Vout with
      | none => rw [hn] at h1; simp at h1
      | some o =>
        rw [hn] at h1
        simp only [Option.map_some', Option.some.injEq] at h1
        rw [h1]; rfl

/-! ## Anatomy of a successful `CreateTransaction` call -/

/-- Everything a successful call fixes about the returned transaction, in the
arithmetic of the code (`int64`). -/
theorem CreateTransaction_ok {lib : Lib} {privKey : PrivateKey} {fromAddr : Address}
    {toAddrStr : String} {amount : Int} {utxos : List UTXO} {tx : MsgTx}
    (hok : CreateTransaction lib privKey fromAddr toAddrStr amount utxos = .ok tx) :
    ∃ toAddr, lib.DecodeAddress toAddrStr = .ok toAddr ∧
      tx.TxIn.length ≤ utxos.length ∧ (utxos ≠ [] → 1 ≤ tx.TxIn.length) ∧
      tx.TxIn.map (fun ti => some ti.PreviousOutPoint) =
        (utxos.take tx.TxIn.length).map
          (fun u => NewOutPoint (lib.NewHashFromStr u.TxID) u.Vout) ∧
      (∀ ti ∈ tx.TxIn, ti.Witness = []) ∧
      add64 amount 1000 ≤ int64Sum (utxos.take tx.TxIn.length) ∧
      (∀ j, 1 ≤ j → j < tx.TxIn.length → int64Sum (utxos.take j) < add64 amount 1000) ∧
      tx.TxOut = NewTxOut amount (lib.PayToAddrScript toAddr) ::
        (if 0 < sub64 (sub64 (int64Sum (utxos.take tx.TxIn.length)) amount) 1000 then
          [NewTxOut (sub64 (sub64 (int64Sum (utxos.take tx.TxIn.length)) amount) 1000)
            (lib.PayToAddrScript fromAddr)]
        else []) ∧
      (∀ i ti, tx.TxIn[i]? = some ti →
        ∃ txi : MsgTx, txi.TxOut = tx.TxOut ∧
          txi.TxIn.map (fun t => t.PreviousOutPoint) = tx.TxIn.map (fun t => t.PreviousOutPoint) ∧
          lib.SignatureScript txi i (lib.PayToAddrScript fromAddr) SigHashAll privKey true
            = .ok ti.SignatureScript) := by
  unfold CreateTransaction at hok
  cases hdec : lib.DecodeAddress toAddrStr with
  | error e => rw [hdec] at hok; simp at hok
  | ok toAddr =>
    rw [hdec] at hok
    simp only at hok
    cases hloop : CreateTransaction_inputLoop lib amount utxos (NewMsgTx TxVersion) 0 with
    | panic m => rw [hloop] at hok; simp at hok
    | err e => rw [hloop] at hok; simp at hok
    | ok r =>
      obtain ⟨tx0, total⟩ := r
      rw [hloop] at hok
      simp only at hok
      obtain ⟨k, hk, hk1, ⟨ins, hins, hlen, hmap⟩, hout0, -, -, htot, hlt, -⟩ :=
        inputLoop_ok lib amount utxos _ _ _ _ hloop
      have hins0 : tx0.TxIn = ins := by simpa [NewMsgTx] using hins
      have hout00 : tx0.TxOut = [] := by simpa [NewMsgTx] using hout0
      have htot0 : total = int64Sum (utxos.take k) := htot
      by_cases hlow : total < add64 amount 1000
      · rw [if_pos hlow] at hok; simp at hok
      · rw [if_neg hlow] at hok
        -- the transaction handed to the signing loop
        generalize htx1 :
          (if sub64 (sub64 total amount) 1000 > 0 then
            (tx0.AddTxOut (NewTxOut amount (lib.PayToAddrScript toAddr))).AddTxOut
              (NewTxOut (sub64 (sub64 total amount) 1000) (lib.PayToAddrScript fromAddr))
          else tx0.AddTxOut (NewTxOut amount (lib.PayToAddrScript toAddr))) = tx1 at hok
        have hin1 : tx1.TxIn = ins := by
          rw [← htx1]; split <;> simp [MsgTx.AddTxOut, hins0]
        have hout1 : tx1.TxOut = NewTxOut amount (lib.PayToAddrScript toAddr) ::
            (if 0 < sub64 (sub64 total amount) 1000 then
              [NewTxOut (sub64 (sub64 total amount) 1000) (lib.PayToAddrScript fromAddr)]
            else []) := by
          rw [← htx1]; split <;> simp_all [MsgTx.AddTxOut]
        obtain ⟨hout, hop, hwit, -, hsig⟩ :=
          signLoop_ok lib privKey fromAddr _ _ _ hok (List.nodup_range _)
        have hlen' : tx.TxIn.length = k := by
          have := congrArg List.length hop
          simpa [hin1, hlen] using this
        rw [hlen']
        refine ⟨toAddr, rfl, hk, hk1, ?_, ?_, ?_, ?_, ?_, ?_⟩
        · have h1 := inputOf_outPoints lib _ _ hmap
          rw [← h1, ← hin1]
          have := congrArg (List.map some) hop
          simpa using this
        · intro ti hti
          have hw : ti.Witness ∈ tx.TxIn.map (fun t => t.Witness) :=
            List.mem_map.mpr ⟨ti, hti, rfl⟩
          rw [hwit, hin1] at hw
          obtain ⟨t0, ht0, ht0w⟩ := List.mem_map.mp hw
          rw [← ht0w]
          exact (inputOf_fresh lib _ _ hmap t0 ht0).1
        · rw [← htot0]; exact not_lt.mp hlow
        · intro j hj1 hj2
          exact hlt j hj1 hj2
        · rw [hout, hout1, htot0]
        · intro i ti hti
          have hi : i < tx.TxIn.length := by
            by_contra hcon
            rw [List.getElem?_eq_none (not_lt.mp hcon)] at hti
            simp at hti
          have hmem : i ∈ List.range tx1.TxIn.length := by
            rw [List.mem_range, hin1, hlen, ← hlen']; exact hi
          obtain ⟨txi, h1, h2, h3⟩ := hsig i hmem ti hti
          exact ⟨txi, by rw [h1, hout], by rw [h2, hop], h3⟩

/-! ## Further facts on the two loops -/

/-- The signing loop never returns an error made with `fmt.Errorf`. -/
theorem signLoop_ne_errorf (lib : Lib) (privKey : PrivateKey) (fromAddr : Address) (m : String) :
    ∀ (idxs : List Nat) (tx : MsgTx),
      CreateTransaction_signLoop lib privKey fromAddr idxs tx ≠ .err (.errorf m) := by
  intro idxs
  induction idxs with
  | nil => intro tx; simp [CreateTransaction_signLoop]
  | cons i rest ih =>
    intro tx
    rw [CreateTransaction_signLoop]
    cases hs : lib.SignatureScript tx i (lib.PayToAddrScript fromAddr) SigHashAll privKey true with
    | error e => simp
    | ok s => exact ih _

/-- The hash string of every unspent that received an input parses. -/
theorem inputOf_parses (lib : Lib) (l : List UTXO) (ins : List TxIn)
    (h : ins.map some = l.map (inputOf lib)) :
    ∀ u ∈ l, (lib.NewHashFromStr u.TxID).isSome := by
  intro u hu
  have hmem : inputOf lib u ∈ ins.map some := by
    rw [h]; exact List.mem_map.mpr ⟨u, hu, rfl⟩
  obtain ⟨ti, -, hti⟩ := List.mem_map.mp hmem
  cases hp : lib.NewHashFromStr u.TxID with
  | none => simp [inputOf, NewOutPoint, hp] at hti
  | some hsh => rfl

/-- A panic of the input loop comes from a hash string that does not parse. -/
theorem inputLoop_panic (lib : Lib) (amount : Int) (us : List UTXO) (tx : MsgTx) (total : Int)
    (m : String) (h : CreateTransaction_inputLoop lib amount us tx total = .panic m) :
    ¬ ∀ u ∈ us, (lib.NewHashFromStr u.TxID).isSome := by
  intro hall
  obtain ⟨r, hr⟩ := inputLoop_total lib amount us tx total hall
  rw [hr] at h
  simp at h

theorem sumValues_take_nonneg (us : List UTXO) (h : ∀ u ∈ us, 0 ≤ u.Value) (k : Nat) :
    0 ≤ sumValues (us.take k) := by
  induction us generalizing k with
  | nil => simp [sumValues]
  | cons u rest ih =>
    cases k with
    | zero => simp [sumValues]
    | succ k =>
      rw [List.take_succ_cons, sumValues_cons]
      have h1 := h u (by simp)
      have h2 := ih (fun v hv => h v (by simp [hv])) k
      omega

theorem sumValues_take_le (us : List UTXO) (h : ∀ u ∈ us, 0 ≤ u.Value) (k : Nat) :
    sumValues (us.take k) ≤ sumValues us := by
  induction us generalizing k with
  | nil => simp [sumValues]
  | cons u rest ih =>
    cases k with
    | zero =>
      have h1 := sumValues_take_nonneg (u :: rest) h (rest.length + 1)
      simpa [sumValues_nil] using h1
    | succ k =>
      rw [List.take_succ_cons, sumValues_cons, sumValues_cons]
      have h2 := ih (fun v hv => h v (by simp [hv])) k
      omega

/-! ## `hex.DecodeString` and the steps of `main` -/

/-- A key with a character outside ASCII is rejected at its first byte:
`é` is the bytes C3 A9, and the error names C3. -/
theorem hexDecodeString_reports_byte :
    stringBytes "é" = [0xC3, 0xA9] ∧ hexDecodeString "é" = .error (.hexInvalidByte 0xC3) :=
  ⟨by decide, by rfl⟩

end Bitcoin

namespace Web3Demo

open Bitcoin

/-- The transaction `constructWithdrawal` serializes has a single input,
with an empty scriptSig and an empty witness stack. -/
theorem constructWithdrawal_unsigned (w : World) (lib : Lib) (toAddressStr : String)
    (amount : Int) (rawTx : String)
    (h : constructWithdrawal w lib toAddressStr amount = .ok rawTx) :
    ∃ (msgTx : MsgTx) (buf : Bytes), w.Serialize msgTx = .ok buf ∧
      rawTx = hexEncodeToString buf ∧ msgTx.TxIn.length = 1 ∧
      ∀ ti ∈ msgTx.TxIn, ti.SignatureScript = [] ∧ ti.Witness = [] := by
  unfold constructWithdrawal at h
  cases hdec : lib.DecodeAddress toAddressStr with
  | error e => rw [hdec] at h; simp at h
  | ok toAddr =>
    rw [hdec] at h
    simp only at h
    cases hop : NewOutPoint
        (lib.NewHashFromStr "0000000000000000000000000000000000000000000000000000000000000000")
        0 with
    | none => rw [hop] at h; simp at h
    | some o =>
      rw [hop] at h
      simp only at h
      cases hs : w.Serialize (((NewMsgTx TxVersion).AddTxOut
          (NewTxOut amount (lib.PayToAddrScript toAddr))).AddTxIn (NewTxIn o [] [])) with
      | error e => rw [hs] at h; simp at h
      | ok buf =>
        rw [hs] at h
        simp only [Result.ok.injEq] at h
        refine ⟨_, buf, hs, h.symm, by simp [MsgTx.AddTxIn, MsgTx.AddTxOut, NewMsgTx], ?_⟩
        intro ti hti
        simp only [MsgTx.AddTxIn, MsgTx.AddTxOut, NewMsgTx, List.nil_append,
          List.mem_singleton] at hti
        subst hti
        exact ⟨rfl, rfl⟩

end Web3Demo

namespace Bitcoin

/-! ## Claims on `CreateTransaction` -/

/-- C1, counterexample.  Three calls at which the inputs are not the shortest
prefix of the unspents whose value sum reaches `amount + 1000`.  (a) amount
-2000 and unspents [100, 200]: the empty prefix already reaches the required
-1000, yet one input is added.  (b) amount 2^63 - 501 and the single unspent
5000: the call succeeds with that input although its value is below
`amount + 1000`, because the `int64` sum `amount+1000` wraps.  (c) amount
2^62 - 999 and unspents [2^62, 2^62, 2^62, 2^62, 2^62 + 1]: the first two
already reach `amount + 1000`, yet all five are added, because the running
total wraps at the second. -/
theorem CreateTransaction_selection_not_shortest :
    (CreateTransaction sampleLib sampleKey (.pubKeyHash [1]) "wpkh:bob" (-2000)
        [sampleUTXO "aa" 100, sampleUTXO "bb" 200]
        = .ok (sampleTx [sampleInput "aa" 0] [⟨-2000, bobScript⟩, ⟨1100, alicePKHScript⟩]) ∧
      (-2000 : Int) + 1000 ≤ sumValues ([sampleUTXO "aa" 100, sampleUTXO "bb" 200].take 0)) ∧
    (CreateTransaction sampleLib sampleKey (.pubKeyHash [1]) "wpkh:bob" (2 ^ 63 - 501)
        [sampleUTXO "aa" 5000]
        = .ok (sampleTx [sampleInput "aa" 0] [⟨2 ^ 63 - 501, bobScript⟩]) ∧
      InRange64 (2 ^ 63 - 501) ∧
      sumValues [sampleUTXO "aa" 5000] < (2 ^ 63 - 501 : Int) + 1000) ∧
    (CreateTransaction sampleLib sampleKey (.pubKeyHash [1]) "wpkh:bob" (2 ^ 62 - 999)
        fiveLargeUnspents
        = .ok (sampleTx
            [sampleInput "aa" 0, sampleInput "bb" 1, sampleInput "cc" 2, sampleInput "dd" 3,
              sampleInput "ee" 4]
            [⟨2 ^ 62 - 999, bobScript⟩]) ∧
      (∀ u ∈ fiveLargeUnspents, InRange64 u.Value) ∧
      (2 ^ 62 - 999 : Int) + 1000 ≤ sumValues (fiveLargeUnspents.take 2)) := by
  decide

/-- C1, amended.  Whenever `CreateTransaction` succeeds, `amount + 1000` does
not overflow `int64` and the exact running total of the unspents it added
stays within `int64`, the inputs of the returned transaction are, in supplied
order, the outpoints of a prefix of the supplied unspents; that prefix is
non-empty when unspents were supplied, its value sum is at least
`amount + 1000`, and no shorter non-empty prefix reaches `amount + 1000` (no
shorter prefix at all when `amount + 1000` is positive). -/
theorem CreateTransaction_selects_shortest_nonempty
    (lib : Lib) (privKey : PrivateKey) (fromAddr : Address) (toAddrStr : String)
    (amount : Int) (utxos : List UTXO) (tx : MsgTx)
    (hok : CreateTransaction lib privKey fromAddr toAddrStr amount utxos = .ok tx)
    (hamount : InRange64 amount) (hfee : amount + 1000 ≤ maxInt64)
    (hsum : ∀ j, j ≤ tx.TxIn.length → InRange64 (sumValues (utxos.take j))) :
    tx.TxIn.length ≤ utxos.length ∧
    tx.TxIn.map (fun ti => some ti.PreviousOutPoint) =
      (utxos.take tx.TxIn.length).map
        (fun u => NewOutPoint (lib.NewHashFromStr u.TxID) u.Vout) ∧
    (utxos ≠ [] → 1 ≤ tx.TxIn.length) ∧
    amount + 1000 ≤ sumValues (utxos.take tx.TxIn.length) ∧
    (∀ j, 1 ≤ j → j < tx.TxIn.length → sumValues (utxos.take j) < amount + 1000) ∧
    (0 < amount + 1000 →
      ∀ j, j < tx.TxIn.length → sumValues (utxos.take j) < amount + 1000) := by
  obtain ⟨toAddr, -, hle, hne, hops, -, hreach, hshort, -, -⟩ := CreateTransaction_ok hok
  have hW : add64 amount 1000 = amount + 1000 := by
    apply wrapInt64_of_inRange
    unfold InRange64 minInt64 maxInt64 at *
    omega
  have hS : ∀ j, j ≤ tx.TxIn.length → int64Sum (utxos.take j) = sumValues (utxos.take j) :=
    fun j hj => by rw [int64Sum_eq_wrap, wrapInt64_of_inRange (hsum j hj)]
  have hshort' : ∀ j, 1 ≤ j → j < tx.TxIn.length →
      sumValues (utxos.take j) < amount + 1000 := by
    intro j hj1 hj2
    have := hshort j hj1 hj2
    rwa [hW, hS j (le_of_lt hj2)] at this
  refine ⟨hle, hops, hne, ?_, hshort', ?_⟩
  · rw [← hW, ← hS _ (le_refl _)]; exact hreach
  · intro hpos j hj
    rcases Nat.eq_zero_or_pos j with hz | hp
    · subst hz; simpa [sumValues] using hpos
    · exact hshort' j hp hj

/-- C1, witness: unspents [100, 200, 300] and a required total of 170
(amount -830) select [100, 200]. -/
theorem CreateTransaction_selects_shortest_nonempty_witness :
    CreateTransaction sampleLib sampleKey (.pubKeyHash [1]) "wpkh:bob" (-830) threeUnspents
      = .ok (sampleTx [sampleInput "aa" 0, sampleInput "bb" 1]
          [⟨-830, bobScript⟩, ⟨130, alicePKHScript⟩]) ∧
    (sampleTx [sampleInput "aa" 0, sampleInput "bb" 1]
        [⟨-830, bobScript⟩, ⟨130, alicePKHScript⟩]).TxIn.map
        (fun ti => some ti.PreviousOutPoint) =
      (threeUnspents.take 2).map
        (fun u => NewOutPoint (sampleLib.NewHashFromStr u.TxID) u.Vout) ∧
    (-830 : Int) + 1000 ≤ sumValues (threeUnspents.take 2) ∧
    sumValues (threeUnspents.take 1) < (-830 : Int) + 1000 := by
  have h := CreateTransaction_selects_shortest_nonempty sampleLib sampleKey
    (.pubKeyHash [1]) "wpkh:bob" (-830) threeUnspents
    (sampleTx [sampleInput "aa" 0, sampleInput "bb" 1]
      [⟨-830, bobScript⟩, ⟨130, alicePKHScript⟩])
    (by decide) (by decide) (by decide) (by decide)
  exact ⟨by decide, h.2.1, h.2.2.2.1, h.2.2.2.2.1 1 (by decide) (by decide)⟩

/-- C2, counterexample.  Three calls at which "fails with insufficient funds"
and "sum of all supplied values < amount + 1000" part ways.  (a) amount
2^63 - 501 with the single unspent 5000: the sum is below `amount + 1000`, yet
the call returns a transaction, because `amount+1000` wraps in `int64`.
(b) amount 2^63 - 1001 with three unspents of 2^62: the sum exceeds
`amount + 1000`, yet the call fails with "insufficient funds", because the
running total wraps.  (c) one unspent of 5000 whose hash string does not
parse, amount 5000: the sum is below `amount + 1000`, yet the call panics
instead of returning the error. -/
theorem CreateTransaction_insufficient_funds_mismatch :
    (CreateTransaction sampleLib sampleKey (.pubKeyHash [1]) "wpkh:bob" (2 ^ 63 - 501)
        [sampleUTXO "aa" 5000]
        = .ok (sampleTx [sampleInput "aa" 0] [⟨2 ^ 63 - 501, bobScript⟩]) ∧
      sumValues [sampleUTXO "aa" 5000] < (2 ^ 63 - 501 : Int) + 1000) ∧
    (CreateTransaction sampleLib sampleKey (.pubKeyHash [1]) "wpkh:bob" (2 ^ 63 - 1001)
        [sampleUTXO "aa" (2 ^ 62), sampleUTXO "bb" (2 ^ 62), sampleUTXO "cc" (2 ^ 62)]
        = .err (.errorf "insufficient funds") ∧
      (2 ^ 63 - 1001 : Int) + 1000 ≤
        sumValues [sampleUTXO "aa" (2 ^ 62), sampleUTXO "bb" (2 ^ 62), sampleUTXO "cc" (2 ^ 62)]) ∧
    (CreateTransaction sampleLib sampleKey (.pubKeyHash [1]) "wpkh:bob" 5000
        [sampleUTXO "not a hash" 5000]
        = .panic "runtime error: invalid memory address or nil pointer dereference" ∧
      sumValues [sampleUTXO "not a hash" 5000] < (5000 : Int) + 1000) := by
  decide

/-- C2, amended.  For unspents with non-negative values whose sum fits in
`int64`, an amount with `amount + 1000` not overflowing `int64` and a
decodable destination address, `CreateTransaction` fails with the error
"insufficient funds" if and only if every supplied hash string parses and
the sum of all supplied values is below `amount + 1000`; that last condition
is the same as no prefix of the unspents reaching `amount + 1000`. -/
theorem CreateTransaction_insufficient_funds_iff
    (lib : Lib) (privKey : PrivateKey) (fromAddr : Address) (toAddrStr : String)
    (amount : Int) (utxos : List UTXO) (toAddr : Address)
    (hdec : lib.DecodeAddress toAddrStr = .ok toAddr)
    (hnonneg : ∀ u ∈ utxos, 0 ≤ u.Value)
    (hsum : sumValues utxos ≤ maxInt64)
    (hamount : InRange64 amount) (hfee : amount + 1000 ≤ maxInt64) :
    (CreateTransaction lib privKey fromAddr toAddrStr amount utxos
        = .err (.errorf "insufficient funds") ↔
      (∀ u ∈ utxos, (lib.NewHashFromStr u.TxID).isSome) ∧
        sumValues utxos < amount + 1000) ∧
    ((∀ k, sumValues (utxos.take k) < amount + 1000) ↔ sumValues utxos < amount + 1000) := by
  have hW : add64 amount 1000 = amount + 1000 := by
    apply wrapInt64_of_inRange
    unfold InRange64 minInt64 maxInt64 at *
    omega
  have hS : ∀ j, int64Sum (utxos.take j) = sumValues (utxos.take j) := by
    intro j
    rw [int64Sum_eq_wrap]
    apply wrapInt64_of_inRange
    have h1 := sumValues_take_nonneg utxos hnonneg j
    have h2 := sumValues_take_le utxos hnonneg j
    unfold InRange64 minInt64 maxInt64 at *
    omega
  refine ⟨?_, ?_⟩
  · unfold CreateTransaction
    rw [hdec]
    simp only
    cases hloop : CreateTransaction_inputLoop lib amount utxos (NewMsgTx TxVersion) 0 with
    | panic m =>
      simp only [false_iff, not_and, reduceCtorEq]
      intro hall
      exact absurd hall (inputLoop_panic lib amount utxos _ _ m hloop)
    | err e => exact absurd hloop (inputLoop_ne_err lib amount e utxos _ _)
    | ok r =>
      obtain ⟨tx0, total⟩ := r
      simp only
      obtain ⟨k, hk, -, ⟨ins, -, -, hmap⟩, -, -, -, htot, -, hbrk⟩ :=
        inputLoop_ok lib amount utxos _ _ _ _ hloop
      have htot' : total = sumValues (utxos.take k) := by rw [← hS k]; exact htot
      by_cases hlow : total < add64 amount 1000
      · rw [if_pos hlow]
        simp only [true_iff]
        have hkl : k = utxos.length := by
          by_contra hne
          have := hbrk (lt_of_le_of_ne hk hne)
          omega
        have htake : utxos.take k = utxos := by rw [hkl]; exact List.take_length _
        refine ⟨?_, ?_⟩
        · have := inputOf_parses lib _ _ hmap
          rwa [htake] at this
        · rw [htake] at htot'
          rw [← htot', ← hW]; exact hlow
      · rw [if_neg hlow]
        constructor
        · intro h
          exact absurd h (signLoop_ne_errorf lib privKey fromAddr _ _ _)
        · rintro ⟨-, hlt⟩
          exfalso
          apply hlow
          have := sumValues_take_le utxos hnonneg k
          rw [hW, htot']
          omega
  · constructor
    · intro h
      have := h utxos.length
      rwa [List.take_length] at this
    · intro h k
      have := sumValues_take_le utxos hnonneg k
      omega

/-- C2, witness: unspents [100, 200, 300] cannot fund amount 1000. -/
theorem CreateTransaction_insufficient_funds_iff_witness :
    sampleLib.DecodeAddress "wpkh:bob" = .ok (.witnessPubKeyHash [2]) ∧
    sumValues threeUnspents ≤ maxInt64 ∧
    CreateTransaction sampleLib sampleKey (.pubKeyHash [1]) "wpkh:bob" 1000 threeUnspents
      = .err (.errorf "insufficient funds") :=
  ⟨by rfl, by decide,
    (CreateTransaction_insufficient_funds_iff sampleLib sampleKey (.pubKeyHash [1])
      "wpkh:bob" 1000 threeUnspents (.witnessPubKeyHash [2]) (by rfl) (by decide) (by decide)
      (by decide) (by decide)).1.mpr ⟨by decide, by decide⟩⟩

/-- C3, counterexample.  Three successful calls whose inputs minus outputs
is not 1000.  (a) amount 2^63 - 501 and the single unspent 5000: the `int64`
sum `amount+1000` wraps below zero, the input is worth 5000 and the single
output 2^63 - 501.  (b) amount 2^62 - 999 and unspents [2^62, 2^62,
2^62, 2^62, 2^62 + 1]: the running total wraps and reaches `amount + 1000`
only at the fifth unspent, all five are inputs and the single output is
2^62 - 999.  (c) amount -1001 and the single
unspent 2^63 - 1: `totalInput - amount - 1000` wraps below zero, so the single
output is -1001. -/
theorem CreateTransaction_fee_not_exact :
    (CreateTransaction sampleLib sampleKey (.pubKeyHash [1]) "wpkh:bob" (2 ^ 63 - 501)
        [sampleUTXO "aa" 5000]
        = .ok (sampleTx [sampleInput "aa" 0] [⟨2 ^ 63 - 501, bobScript⟩]) ∧
      InRange64 (2 ^ 63 - 501) ∧
      sumValues ([sampleUTXO "aa" 5000].take 1) - sumOutputs [⟨2 ^ 63 - 501, bobScript⟩]
        ≠ 1000) ∧
    (CreateTransaction sampleLib sampleKey (.pubKeyHash [1]) "wpkh:bob" (2 ^ 62 - 999)
        fiveLargeUnspents
        = .ok (sampleTx
            [sampleInput "aa" 0, sampleInput "bb" 1, sampleInput "cc" 2, sampleInput "dd" 3,
              sampleInput "ee" 4]
            [⟨2 ^ 62 - 999, bobScript⟩]) ∧
      (∀ u ∈ fiveLargeUnspents, InRange64 u.Value) ∧
      sumValues (fiveLargeUnspents.take 5) - sumOutputs [⟨2 ^ 62 - 999, bobScript⟩] ≠ 1000) ∧
    (CreateTransaction sampleLib sampleKey (.pubKeyHash [1]) "wpkh:bob" (-1001)
        [sampleUTXO "aa" (2 ^ 63 - 1)]
        = .ok (sampleTx [sampleInput "aa" 0] [⟨-1001, bobScript⟩]) ∧
      InRange64 (2 ^ 63 - 1) ∧
      sumValues ([sampleUTXO "aa" (2 ^ 63 - 1)].take 1) - sumOutputs [⟨-1001, bobScript⟩]
        ≠ 1000) := by
  decide

/-- C3, amended.  For every successful call in which no `int64` operation
overflows (`amount + 1000`, the exact value sum of the unspents added as
inputs, and that sum minus `amount` minus 1000 all fit in `int64`), the sum of
the values of the unspents added as inputs minus the sum of the values of the
outputs is exactly 1000. -/
theorem CreateTransaction_fee_exact
    (lib : Lib) (privKey : PrivateKey) (fromAddr : Address) (toAddrStr : String)
    (amount : Int) (utxos : List UTXO) (tx : MsgTx)
    (hok : CreateTransaction lib privKey fromAddr toAddrStr amount utxos = .ok tx)
    (hamount : InRange64 amount) (hfee : amount + 1000 ≤ maxInt64)
    (hin : InRange64 (sumValues (utxos.take tx.TxIn.length)))
    (hchange : sumValues (utxos.take tx.TxIn.length) - amount - 1000 ≤ maxInt64) :
    sumValues (utxos.take tx.TxIn.length) - sumOutputs tx.TxOut = 1000 := by
  obtain ⟨toAddr, -, -, -, -, -, hreach, -, hout, -⟩ := CreateTransaction_ok hok
  have hW : add64 amount 1000 = amount + 1000 := by
    apply wrapInt64_of_inRange
    unfold InRange64 minInt64 maxInt64 at *
    omega
  have hS : int64Sum (utxos.take tx.TxIn.length) = sumValues (utxos.take tx.TxIn.length) := by
    rw [int64Sum_eq_wrap, wrapInt64_of_inRange hin]
  rw [hW, hS] at hreach
  have hC : sub64 (sub64 (int64Sum (utxos.take tx.TxIn.length)) amount) 1000
      = sumValues (utxos.take tx.TxIn.length) - amount - 1000 := by
    rw [change_eq_wrap]
    apply wrapInt64_of_inRange
    unfold InRange64 minInt64 maxInt64 at *
    omega
  rw [hC] at hout
  rw [hout]
  by_cases hpos : 0 < sumValues (utxos.take tx.TxIn.length) - amount - 1000
  · rw [if_pos hpos]
    simp only [sumOutputs, NewTxOut, List.map_cons, List.map_nil, List.sum_cons, List.sum_nil]
    omega
  · rw [if_neg hpos]
    simp only [sumOutputs, NewTxOut, List.map_cons, List.map_nil, List.sum_cons, List.sum_nil]
    omega

/-- C3, witness: one unspent of 5000 and amount 1000 leave a fee of 1000. -/
theorem CreateTransaction_fee_exact_witness :
    CreateTransaction sampleLib sampleKey (.pubKeyHash [1]) "wpkh:bob" 1000
        [sampleUTXO "aa" 5000]
      = .ok (sampleTx [sampleInput "aa" 0] [⟨1000, bobScript⟩, ⟨3000, alicePKHScript⟩]) ∧
    sumValues ([sampleUTXO "aa" 5000].take
        (sampleTx [sampleInput "aa" 0] [⟨1000, bobScript⟩, ⟨3000, alicePKHScript⟩]).TxIn.length)
      - sumOutputs (sampleTx [sampleInput "aa" 0]
          [⟨1000, bobScript⟩, ⟨3000, alicePKHScript⟩]).TxOut = 1000 :=
  ⟨by decide, CreateTransaction_fee_exact sampleLib sampleKey (.pubKeyHash [1]) "wpkh:bob" 1000
    [sampleUTXO "aa" 5000]
    (sampleTx [sampleInput "aa" 0] [⟨1000, bobScript⟩, ⟨3000, alicePKHScript⟩])
    (by decide) (by decide) (by decide) (by decide) (by decide)⟩

/-- C4, counterexample.  One unspent of 1500 and amount 400 leave a change of
100, which is not above 546, and the transaction has a change output of 100
to the sender all the same. -/
theorem CreateTransaction_change_below_dust :
    CreateTransaction sampleLib sampleKey (.pubKeyHash [1]) "wpkh:bob" 400
        [sampleUTXO "aa" 1500]
      = .ok (sampleTx [sampleInput "aa" 0] [⟨400, bobScript⟩, ⟨100, alicePKHScript⟩]) ∧
    sub64 (sub64 (int64Sum [sampleUTXO "aa" 1500]) 400) 1000 = 100 ∧
    ¬ ((100 : Int) > 546) ∧
    sampleLib.PayToAddrScript (.pubKeyHash [1]) = alicePKHScript := by
  decide

/-- C4, amended.  For every successful call, with
`change = totalIn - amount - 1000` as the code computes it in `int64` (the
exact difference whenever that fits in `int64`), a change output to the
sender is appended if and only if `change > 0`: when `change > 0` the outputs
are the payment followed by the change output, and when `change <= 0` the
payment is the only output. -/
theorem CreateTransaction_change_iff_positive
    (lib : Lib) (privKey : PrivateKey) (fromAddr : Address) (toAddrStr : String)
    (amount : Int) (utxos : List UTXO) (tx : MsgTx)
    (hok : CreateTransaction lib privKey fromAddr toAddrStr amount utxos = .ok tx) :
    ∃ toAddr, lib.DecodeAddress toAddrStr = .ok toAddr ∧
      (0 < sub64 (sub64 (int64Sum (utxos.take tx.TxIn.length)) amount) 1000 →
        tx.TxOut = [NewTxOut amount (lib.PayToAddrScript toAddr),
          NewTxOut (sub64 (sub64 (int64Sum (utxos.take tx.TxIn.length)) amount) 1000)
            (lib.PayToAddrScript fromAddr)]) ∧
      (sub64 (sub64 (int64Sum (utxos.take tx.TxIn.length)) amount) 1000 ≤ 0 →
        tx.TxOut = [NewTxOut amount (lib.PayToAddrScript toAddr)]) ∧
      (InRange64 (sumValues (utxos.take tx.TxIn.length) - amount - 1000) →
        sub64 (sub64 (int64Sum (utxos.take tx.TxIn.length)) amount) 1000
          = sumValues (utxos.take tx.TxIn.length) - amount - 1000) := by
  obtain ⟨toAddr, hdec, -, -, -, -, -, -, hout, -⟩ := CreateTransaction_ok hok
  refine ⟨toAddr, hdec, ?_, ?_, ?_⟩
  · intro hpos
    rw [hout, if_pos hpos]
  · intro hle
    rw [hout, if_neg (not_lt.mpr hle)]
  · intro hr
    rw [change_eq_wrap, wrapInt64_of_inRange hr]

/-- C4, witness: one unspent of 1500 and amount 400 give a change output of 100. -/
theorem CreateTransaction_change_iff_positive_witness :
    CreateTransaction sampleLib sampleKey (.pubKeyHash [1]) "wpkh:bob" 400
        [sampleUTXO "aa" 1500]
      = .ok (sampleTx [sampleInput "aa" 0] [⟨400, bobScript⟩, ⟨100, alicePKHScript⟩]) ∧
    ∃ toAddr, sampleLib.DecodeAddress "wpkh:bob" = .ok toAddr ∧
      (0 < sub64 (sub64 (int64Sum [sampleUTXO "aa" 1500]) 400) 1000 →
        (sampleTx [sampleInput "aa" 0] [⟨400, bobScript⟩, ⟨100, alicePKHScript⟩]).TxOut =
          [NewTxOut 400 (sampleLib.PayToAddrScript toAddr),
            NewTxOut (sub64 (sub64 (int64Sum [sampleUTXO "aa" 1500]) 400) 1000)
              (sampleLib.PayToAddrScript (.pubKeyHash [1]))]) := by
  refine ⟨by decide, ?_⟩
  obtain ⟨toAddr, h1, h2, -, -⟩ := CreateTransaction_change_iff_positive sampleLib sampleKey
    (.pubKeyHash [1]) "wpkh:bob" 400 [sampleUTXO "aa" 1500]
    (sampleTx [sampleInput "aa" 0] [⟨400, bobScript⟩, ⟨100, alicePKHScript⟩]) (by decide)
  exact ⟨toAddr, h1, h2⟩

/-- C5, counterexample.  Two successful calls whose change output does not
carry the exact `totalIn - amount - 1000`.  (a) amount 1000 and unspents
[1999, 2^63 - 1, 2^63 - 1, 1003]: the running `int64` total wraps twice and
is 3000 at the fourth unspent, so the four inputs are worth 2^64 + 3000 while
the change output carries 1000.  (b) amount 2^63 - 1 and a single unspent of
0: `amount+1000` wraps below zero, the call succeeds with `totalInput` 0, and
the change output carries 2^63 - 999, not 0 - (2^63 - 1) - 1000. -/
theorem CreateTransaction_change_value_wraps :
    (CreateTransaction sampleLib sampleKey (.pubKeyHash [1]) "wpkh:bob" 1000 twiceWrappingUnspents
        = .ok (sampleTx
            [sampleInput "aa" 0, sampleInput "bb" 1, sampleInput "cc" 2, sampleInput "dd" 3]
            [⟨1000, bobScript⟩, ⟨1000, alicePKHScript⟩]) ∧
      (∀ u ∈ twiceWrappingUnspents, InRange64 u.Value) ∧
      sumValues (twiceWrappingUnspents.take 4) - 1000 - 1000 = 2 ^ 64 + 1000 ∧
      (1000 : Int) ≠ sumValues (twiceWrappingUnspents.take 4) - 1000 - 1000) ∧
    (CreateTransaction sampleLib sampleKey (.pubKeyHash [1]) "wpkh:bob" (2 ^ 63 - 1)
        [sampleUTXO "aa" 0]
        = .ok (sampleTx [sampleInput "aa" 0]
            [⟨2 ^ 63 - 1, bobScript⟩, ⟨2 ^ 63 - 999, alicePKHScript⟩]) ∧
      InRange64 (2 ^ 63 - 1) ∧
      int64Sum ([sampleUTXO "aa" 0].take 1) = 0 ∧
      (2 ^ 63 - 999 : Int) ≠ 0 - (2 ^ 63 - 1) - 1000) := by
  decide

/-- C5, amended.  For every successful call the first output carries exactly
`amount` and the pay-to-address script of the decoded destination address;
there are at most two outputs; an output after the first is the second and
last one, its script is the pay-to-address script of the sender and its value
is `totalIn - amount - 1000` as the code computes it in wrapping `int64`
arithmetic, which is the exact difference whenever that difference fits in
`int64`. -/
theorem CreateTransaction_output_layout
    (lib : Lib) (privKey : PrivateKey) (fromAddr : Address) (toAddrStr : String)
    (amount : Int) (utxos : List UTXO) (tx : MsgTx)
    (hok : CreateTransaction lib privKey fromAddr toAddrStr amount utxos = .ok tx) :
    ∃ toAddr, lib.DecodeAddress toAddrStr = .ok toAddr ∧
      tx.TxOut[0]? = some { Value := amount, PkScript := lib.PayToAddrScript toAddr } ∧
      tx.TxOut.length ≤ 2 ∧
      (∀ i o, 1 ≤ i → tx.TxOut[i]? = some o →
        i = 1 ∧ tx.TxOut.length = 2 ∧
        o.PkScript = lib.PayToAddrScript fromAddr ∧
        o.Value = sub64 (sub64 (int64Sum (utxos.take tx.TxIn.length)) amount) 1000 ∧
        (InRange64 (sumValues (utxos.take tx.TxIn.length) - amount - 1000) →
          o.Value = sumValues (utxos.take tx.TxIn.length) - amount - 1000)) := by
  obtain ⟨toAddr, hdec, -, -, -, -, -, -, hout, -⟩ := CreateTransaction_ok hok
  refine ⟨toAddr, hdec, ?_, ?_, ?_⟩
  · rw [hout]; simp [NewTxOut]
  · rw [hout]; split <;> simp
  · intro i o hi hio
    rw [hout] at hio ⊢
    obtain ⟨j, rfl⟩ : ∃ j, i = j + 1 := ⟨i - 1, by omega⟩
    rw [List.getElem?_cons_succ] at hio
    by_cases hpos : 0 < sub64 (sub64 (int64Sum (utxos.take tx.TxIn.length)) amount) 1000
    · rw [if_pos hpos] at hio ⊢
      cases j with
      | zero =>
        simp only [List.getElem?_cons_zero, Option.some.injEq] at hio
        subst hio
        refine ⟨rfl, rfl, rfl, rfl, ?_⟩
        intro hr
        simp only [NewTxOut]
        rw [change_eq_wrap, wrapInt64_of_inRange hr]
      | succ j => simp at hio
    · rw [if_neg hpos] at hio
      simp at hio

/-- C5, witness: a single unspent of 5000 and amount 1000 give the outputs
[1000 payment, 3000 change to the sender]. -/
theorem CreateTransaction_output_layout_witness :
    CreateTransaction sampleLib sampleKey (.pubKeyHash [1]) "wpkh:bob" 1000
        [sampleUTXO "aa" 5000]
      = .ok (sampleTx [sampleInput "aa" 0] [⟨1000, bobScript⟩, ⟨3000, alicePKHScript⟩]) ∧
    (sampleTx [sampleInput "aa" 0] [⟨1000, bobScript⟩, ⟨3000, alicePKHScript⟩]).TxOut.length
      = 2 ∧
    alicePKHScript = sampleLib.PayToAddrScript (.pubKeyHash [1]) ∧
    (3000 : Int) = sumValues ([sampleUTXO "aa" 5000].take 1) - 1000 - 1000 := by
  refine ⟨by decide, ?_⟩
  obtain ⟨toAddr, -, -, -, h4⟩ := CreateTransaction_output_layout sampleLib sampleKey
    (.pubKeyHash [1]) "wpkh:bob" 1000 [sampleUTXO "aa" 5000]
    (sampleTx [sampleInput "aa" 0] [⟨1000, bobScript⟩, ⟨3000, alicePKHScript⟩]) (by decide)
  obtain ⟨-, h5, h6, -, h7⟩ := h4 1 ⟨3000, alicePKHScript⟩ (by decide) (by decide)
  exact ⟨h5, h6, h7 (by decide)⟩

/-- C8, counterexample.  A successful call whose sender is a P2WPKH address
(`witnessPubKeyHash`): the input of the returned transaction has a non-empty
scriptSig and an empty witness stack, not an empty scriptSig and a witness of
two elements. -/
theorem CreateTransaction_segwit_sender_no_witness_data :
    CreateTransaction sampleLib sampleKey (.witnessPubKeyHash [1]) "wpkh:bob" 1000
        [sampleUTXO "aa" 5000]
      = .ok (sampleTx [sampleInput "aa" 0] [⟨1000, bobScript⟩, ⟨3000, aliceWPKHScript⟩]) ∧
    (sampleInput "aa" 0).SignatureScript ≠ [] ∧
    (sampleInput "aa" 0).Witness.length ≠ 2 ∧
    (sampleInput "aa" 0).Witness = [] := by
  decide

/-- C8, amended.  For every successful call, whatever the type of the sender
address, every input of the returned transaction has an empty witness stack,
and its scriptSig is the script `txscript.SignatureScript` returned for that
input index with the sender's pay-to-address script, `SigHashAll`, the
private key and compressed-key mode, on the transaction under construction
(same outputs and outpoints as the returned one). -/
theorem CreateTransaction_inputs_legacy_signed
    (lib : Lib) (privKey : PrivateKey) (fromAddr : Address) (toAddrStr : String)
    (amount : Int) (utxos : List UTXO) (tx : MsgTx)
    (hok : CreateTransaction lib privKey fromAddr toAddrStr amount utxos = .ok tx) :
    ∀ i ti, tx.TxIn[i]? = some ti →
      ti.Witness = [] ∧
      ∃ txi : MsgTx, txi.TxOut = tx.TxOut ∧
        txi.TxIn.map (fun t => t.PreviousOutPoint) = tx.TxIn.map (fun t => t.PreviousOutPoint) ∧
        lib.SignatureScript txi i (lib.PayToAddrScript fromAddr) SigHashAll privKey true
          = .ok ti.SignatureScript := by
  obtain ⟨toAddr, -, -, -, -, hwit, -, -, -, hsig⟩ := CreateTransaction_ok hok
  intro i ti hti
  exact ⟨hwit ti (List.getElem?_mem hti), hsig i ti hti⟩

/-- C8, witness: a P2WPKH sender, one unspent of 5000, amount 1000. -/
theorem CreateTransaction_inputs_legacy_signed_witness :
    CreateTransaction sampleLib sampleKey (.witnessPubKeyHash [1]) "wpkh:bob" 1000
        [sampleUTXO "aa" 5000]
      = .ok (sampleTx [sampleInput "aa" 0] [⟨1000, bobScript⟩, ⟨3000, aliceWPKHScript⟩]) ∧
    (sampleInput "aa" 0).Witness = [] :=
  ⟨by decide, (CreateTransaction_inputs_legacy_signed sampleLib sampleKey
    (.witnessPubKeyHash [1]) "wpkh:bob" 1000 [sampleUTXO "aa" 5000]
    (sampleTx [sampleInput "aa" 0] [⟨1000, bobScript⟩, ⟨3000, aliceWPKHScript⟩]) (by decide)
    0 (sampleInput "aa" 0) (by decide)).1⟩

/-! ## Claims on configuration, the indexer client and `main` -/

/-- C6.  Precedence in `loadConfig`, from the zero-valued `globalConfig`:
(1) a non-empty `BTC_NODE_API_URL` becomes `DataAPIURL`, whatever the file
holds; (2) otherwise, when `config.yml` is read and parsed and its
`wallet_node.btc.data_api_url` is non-empty, the result is that whole `btc`
record; (3) otherwise `DataAPIURL` is the blockstream testnet URL. -/
theorem loadConfig_precedence (w : World) :
    (w.Getenv "BTC_NODE_API_URL" ≠ "" →
      (loadConfig w NodeConfig.zero).DataAPIURL = w.Getenv "BTC_NODE_API_URL") ∧
    (w.Getenv "BTC_NODE_API_URL" = "" →
      ∀ yamlFile cfg, w.ReadFile "config.yml" = .ok yamlFile →
        w.YamlUnmarshal yamlFile = .ok cfg → cfg.WalletNode.BTC.DataAPIURL ≠ "" →
        loadConfig w NodeConfig.zero = cfg.WalletNode.BTC) ∧
    (w.Getenv "BTC_NODE_API_URL" = "" →
      (¬ ∃ yamlFile cfg, w.ReadFile "config.yml" = .ok yamlFile ∧
        w.YamlUnmarshal yamlFile = .ok cfg ∧ cfg.WalletNode.BTC.DataAPIURL ≠ "") →
      (loadConfig w NodeConfig.zero).DataAPIURL = "https://blockstream.info/testnet/api") := by
  refine ⟨?_, ?_, ?_⟩
  · intro henv
    simp [loadConfig, henv]
  · intro henv yamlFile cfg hread hyaml hurl
    simp [loadConfig, henv, hread, hyaml, hurl]
  · intro henv hno
    unfold loadConfig
    simp only [henv, ne_eq, not_true_eq_false, if_false]
    cases hread : w.ReadFile "config.yml" with
    | error e => simp [NodeConfig.zero]
    | ok yamlFile =>
      simp only
      cases hyaml : w.YamlUnmarshal yamlFile with
      | error e => simp [NodeConfig.zero]
      | ok cfg =>
        simp only
        by_cases hurl : cfg.WalletNode.BTC.DataAPIURL = ""
        · simp [hurl, NodeConfig.zero]
        · exact absurd ⟨yamlFile, cfg, hread, hyaml, hurl⟩ hno

/-- C6, witness: one environment for each of the three cases. -/
theorem loadConfig_precedence_witness :
    (loadConfig (sampleConfigWorld "http://localhost:3000" (some sampleYaml))
        NodeConfig.zero).DataAPIURL = "http://localhost:3000" ∧
    loadConfig (sampleConfigWorld "" (some sampleYaml)) NodeConfig.zero
      = sampleYaml.WalletNode.BTC ∧
    (loadConfig (sampleConfigWorld "" none) NodeConfig.zero).DataAPIURL
      = "https://blockstream.info/testnet/api" :=
  ⟨(loadConfig_precedence (sampleConfigWorld "http://localhost:3000" (some sampleYaml))).1
      (by decide),
    (loadConfig_precedence (sampleConfigWorld "" (some sampleYaml))).2.1 (by decide)
      [] sampleYaml (by rfl) (by rfl) (by decide),
    (loadConfig_precedence (sampleConfigWorld "" none)).2.2 (by decide)
      (by rintro ⟨y, c, h, -⟩; simp [sampleConfigWorld] at h)⟩

/-- C7, counterexample.  The indexer answers 400 with an error text:
`BroadcastTransaction` returns that text as the txid, with a nil error.  The
indexer answers 503 with the body `[]`: `GetUTXOs` returns the empty list,
with a nil error. -/
theorem indexer_calls_accept_error_status :
    BroadcastTransaction (sampleWorld "" "" ⟨400, "sendrawtransaction RPC error"⟩)
        sampleNodeConfig (NewMsgTx TxVersion) = .ok "sendrawtransaction RPC error" ∧
    ¬ (200 ≤ 400 ∧ 400 ≤ 299) ∧
    GetUTXOs (sampleWorld "" "" ⟨503, "[]"⟩) sampleNodeConfig "wpkh:alice" = .ok [] ∧
    ¬ (200 ≤ 503 ∧ 503 ≤ 299) := by
  decide

/-- C7, amended.  The status code plays no part.  When the transaction
serializes, the `POST {base}/tx` request is built and the transport returns
a response to it, `BroadcastTransaction` returns the body of that response as
the txid with a nil error, whatever its status code.  When the
`GET {base}/address/{address}/utxo` request is built and the transport
returns a response to it, `GetUTXOs` returns what the JSON decoder makes of
the body, whatever the status code: the decoded list, or the decoder's
error.  An error of `BroadcastTransaction` is the error of the serializer, of
`http.NewRequest` or of `client.Do`; an error of `GetUTXOs` is the error of
`http.NewRequest`, of `client.Do` or of `json.Unmarshal`. -/
theorem indexer_calls_ignore_status (w : World) (globalConfig : NodeConfig) (tx : MsgTx)
    (address : String) :
    (∀ buf req resp, w.Serialize tx = .ok buf →
      w.NewRequest "POST" (globalConfig.DataAPIURL ++ "/tx") (some (hexEncodeToString buf))
        = .ok req →
      w.Do (newClient globalConfig)
        (addCredentials globalConfig (req.HeaderSet "Content-Type" "text/plain")) = .ok resp →
      BroadcastTransaction w globalConfig tx = .ok resp.Body) ∧
    (∀ req resp,
      w.NewRequest "GET" (globalConfig.DataAPIURL ++ "/address/" ++ address ++ "/utxo") none
        = .ok req →
      w.Do (newClient globalConfig) (addCredentials globalConfig req) = .ok resp →
      GetUTXOs w globalConfig address =
        (match w.JsonUnmarshal resp.Body with
         | .ok utxos => .ok utxos
         | .error e => .err (.lib e))) ∧
    (∀ e, BroadcastTransaction w globalConfig tx = .err e →
      ∃ m, e = .lib m ∧
        (w.Serialize tx = .error m ∨
          ∃ buf, w.Serialize tx = .ok buf ∧
            (w.NewRequest "POST" (globalConfig.DataAPIURL ++ "/tx")
                (some (hexEncodeToString buf)) = .error m ∨
              ∃ req, w.NewRequest "POST" (globalConfig.DataAPIURL ++ "/tx")
                  (some (hexEncodeToString buf)) = .ok req ∧
                w.Do (newClient globalConfig)
                  (addCredentials globalConfig (req.HeaderSet "Content-Type" "text/plain"))
                  = .error m))) ∧
    (∀ e, GetUTXOs w globalConfig address = .err e →
      ∃ m, e = .lib m ∧
        (w.NewRequest "GET" (globalConfig.DataAPIURL ++ "/address/" ++ address ++ "/utxo")
            none = .error m ∨
          ∃ req, w.NewRequest "GET"
              (globalConfig.DataAPIURL ++ "/address/" ++ address ++ "/utxo") none = .ok req ∧
            (w.Do (newClient globalConfig) (addCredentials globalConfig req) = .error m ∨
              ∃ resp, w.Do (newClient globalConfig) (addCredentials globalConfig req)
                  = .ok resp ∧
                w.JsonUnmarshal resp.Body = .error m))) := by
  refine ⟨?_, ?_, ?_, ?_⟩
  · intro buf req resp hbuf hreq hdo
    simp [BroadcastTransaction, hbuf, hreq, hdo]
  · intro req resp hreq hdo
    simp only [GetUTXOs, hreq, hdo]
    cases w.JsonUnmarshal resp.Body <;> rfl
  · intro e h
    unfold BroadcastTransaction at h
    cases hbuf : w.Serialize tx with
    | error m =>
      rw [hbuf] at h
      simp only [Result.err.injEq] at h
      exact ⟨m, h.symm, Or.inl rfl⟩
    | ok buf =>
      rw [hbuf] at h
      dsimp only at h
      cases hreq : w.NewRequest "POST" (globalConfig.DataAPIURL ++ "/tx")
          (some (hexEncodeToString buf)) with
      | error m =>
        rw [hreq] at h
        simp only [Result.err.injEq] at h
        exact ⟨m, h.symm, Or.inr ⟨buf, rfl, Or.inl hreq⟩⟩
      | ok req =>
        rw [hreq] at h
        dsimp only at h
        cases hdo : w.Do (newClient globalConfig)
            (addCredentials globalConfig (req.HeaderSet "Content-Type" "text/plain")) with
        | error m =>
          rw [hdo] at h
          simp only [Result.err.injEq] at h
          exact ⟨m, h.symm, Or.inr ⟨buf, rfl, Or.inr ⟨req, hreq, hdo⟩⟩⟩
        | ok resp => rw [hdo] at h; simp at h
  · intro e h
    unfold GetUTXOs at h
    dsimp only at h
    cases hreq : w.NewRequest "GET"
        (globalConfig.DataAPIURL ++ "/address/" ++ address ++ "/utxo") none with
    | error m =>
      rw [hreq] at h
      simp only [Result.err.injEq] at h
      exact ⟨m, h.symm, Or.inl rfl⟩
    | ok req =>
      rw [hreq] at h
      dsimp only at h
      cases hdo : w.Do (newClient globalConfig) (addCredentials globalConfig req) with
      | error m =>
        rw [hdo] at h
        simp only [Result.err.injEq] at h
        exact ⟨m, h.symm, Or.inr ⟨req, rfl, Or.inl hdo⟩⟩
      | ok resp =>
        rw [hdo] at h
        dsimp only at h
        cases hj : w.JsonUnmarshal resp.Body with
        | error m =>
          rw [hj] at h
          simp only [Result.err.injEq] at h
          exact ⟨m, h.symm, Or.inr ⟨req, rfl, Or.inr ⟨resp, hdo, hj⟩⟩⟩
        | ok utxos => rw [hj] at h; simp at h

/-- C7, witness: an indexer that answers 404 with the body `[]`, asked at the
public testnet base URL. -/
theorem indexer_calls_ignore_status_witness :
    BroadcastTransaction (sampleWorld "" "" ⟨404, "[]"⟩) sampleNodeConfig (NewMsgTx TxVersion)
      = .ok "[]" ∧
    GetUTXOs (sampleWorld "" "" ⟨404, "[]"⟩) sampleNodeConfig "wpkh:alice" = .ok [] := by
  have h := indexer_calls_ignore_status (sampleWorld "" "" ⟨404, "[]"⟩) sampleNodeConfig
    (NewMsgTx TxVersion) "wpkh:alice"
  exact ⟨h.1 [0, 0]
      { Method := "POST", URL := "https://blockstream.info/testnet/api/tx",
        Body := some "0000", Header := [] }
      ⟨404, "[]"⟩ (by rfl) (by rfl) (by rfl),
    h.2.1
      { Method := "GET",
        URL := "https://blockstream.info/testnet/api/address/wpkh:alice/utxo",
        Body := none, Header := [] }
      ⟨404, "[]"⟩ (by rfl) (by rfl)⟩

end Bitcoin

namespace Casbin

/-! ## Claim on `authMiddleware` -/

/-- C10.  The middleware hands the request to the next handler exactly when
`X-User` is non-empty and the evaluator returns `(true, nil)` for (user,
path, method).  In every other case the result is the aborted context, the
same whatever the next handler is (it is not run): status 401 when `X-User`
is empty, 500 when the evaluator returns an error, 403 when it returns
`(false, nil)`. -/
theorem authMiddleware_decision
    (Enforce : String → String → String → Bool × Option String)
    (Next : Context → Context) (c : Context) :
    (c.XUser ≠ "" ∧ Enforce c.XUser c.Path c.Method = (true, none) →
      authMiddleware Enforce Next c = Next c) ∧
    (¬ (c.XUser ≠ "" ∧ Enforce c.XUser c.Path c.Method = (true, none)) →
      (authMiddleware Enforce Next c).aborted = true ∧
      ∀ Next2, authMiddleware Enforce Next2 c = authMiddleware Enforce Next c) ∧
    (c.XUser = "" →
      authMiddleware Enforce Next c =
        { c with aborted := true, status := some 401, json := [("error", "missing user")] }) ∧
    (c.XUser ≠ "" → ∀ allowed e, Enforce c.XUser c.Path c.Method = (allowed, some e) →
      authMiddleware Enforce Next c =
        { c with aborted := true, status := some 500, json := [("error", "auth error")] }) ∧
    (c.XUser ≠ "" → Enforce c.XUser c.Path c.Method = (false, none) →
      authMiddleware Enforce Next c =
        { c with aborted := true, status := some 403, json := [("error", "forbidden")] }) := by
  refine ⟨?_, ?_, ?_, ?_, ?_⟩
  · rintro ⟨hu, he⟩
    simp [authMiddleware, hu, he]
  · intro hnot
    by_cases hu : c.XUser = ""
    · simp [authMiddleware, hu, Context.AbortWithStatusJSON]
    · rcases he : Enforce c.XUser c.Path c.Method with ⟨allowed, err⟩
      cases err with
      | some e => simp [authMiddleware, hu, he, Context.AbortWithStatusJSON]
      | none =>
        cases allowed with
        | true => exact absurd ⟨hu, he⟩ hnot
        | false => simp [authMiddleware, hu, he, Context.AbortWithStatusJSON]
  · intro hu
    simp [authMiddleware, hu, Context.AbortWithStatusJSON, StatusUnauthorized]
  · intro hu allowed e he
    simp [authMiddleware, hu, he, Context.AbortWithStatusJSON, StatusInternalServerError]
  · intro hu he
    simp [authMiddleware, hu, he, Context.AbortWithStatusJSON, StatusForbidden]

/-- C10, witness: `alice` reaches the handler of `GET /api/user`; `bob` is
stopped with 403, a failing evaluation with 500, a missing user with 401. -/
theorem authMiddleware_decision_witness :
    authMiddleware samplePolicy userListHandler (newContext "alice" "/api/user" "GET")
      = userListHandler (newContext "alice" "/api/user" "GET") ∧
    authMiddleware samplePolicy userListHandler (newContext "bob" "/api/user" "GET")
      = { newContext "bob" "/api/user" "GET" with
          aborted := true, status := some 403, json := [("error", "forbidden")] } ∧
    authMiddleware samplePolicy userListHandler (newContext "broken" "/api/user" "GET")
      = { newContext "broken" "/api/user" "GET" with
          aborted := true, status := some 500, json := [("error", "auth error")] } ∧
    authMiddleware samplePolicy userListHandler (newContext "" "/api/user" "GET")
      = { newContext "" "/api/user" "GET" with
          aborted := true, status := some 401, json := [("error", "missing user")] } :=
  ⟨(authMiddleware_decision samplePolicy userListHandler
      (newContext "alice" "/api/user" "GET")).1 ⟨by decide, by decide⟩,
    (authMiddleware_decision samplePolicy userListHandler
      (newContext "bob" "/api/user" "GET")).2.2.2.2 (by decide) (by decide),
    (authMiddleware_decision samplePolicy userListHandler
      (newContext "broken" "/api/user" "GET")).2.2.2.1 (by decide) false "invalid request size"
      (by decide),
    (authMiddleware_decision samplePolicy userListHandler
      (newContext "" "/api/user" "GET")).2.2.1 (by decide)⟩

end Casbin
